import Mathlib

/-!
# camdumper: timer, timestamp formatter and capture loop

A shallow embedding of `camdumper.cpp`:

* `timestamp()` with the C library pieces it calls (`localtime`, `strftime`,
  stream output with `setw`/`setfill`);
* `class Timer`, whose `getTimeSeconds` computes in IEEE-754 binary64;
* `main`: the capture loop and the write-out loop, over an explicit
  environment (camera, clock, keyboard) and an explicit event trace.
-/

namespace Camdumper

/-! ## C library data -/

/-- The C `struct timeval`: seconds and microseconds since the Epoch. -/
structure timeval where
  tv_sec : Int
  tv_usec : Int
deriving DecidableEq, Repr

/-- The fields of the C `struct tm` that the format string reads.
`tm_mon` counts months since January, `tm_year` years since 1900. -/
structure tm where
  tm_sec : Int
  tm_min : Int
  tm_hour : Int
  tm_mday : Int
  tm_mon : Int
  tm_year : Int
deriving DecidableEq, Repr

/-- The documented ranges of the fields of a `struct tm` that `localtime`
fills in: seconds 0..60 (leap second), minutes 0..59, hours 0..23, day of the
month 1..31, months since January 0..11, and a year that fits an `int`. -/
def tm.inRange (t : tm) : Prop :=
  (0 ≤ t.tm_sec ∧ t.tm_sec ≤ 60) ∧ (0 ≤ t.tm_min ∧ t.tm_min ≤ 59) ∧
  (0 ≤ t.tm_hour ∧ t.tm_hour ≤ 23) ∧ (1 ≤ t.tm_mday ∧ t.tm_mday ≤ 31) ∧
  (0 ≤ t.tm_mon ∧ t.tm_mon ≤ 11) ∧
  (-2147483648 ≤ t.tm_year + 1900 ∧ t.tm_year + 1900 ≤ 2147483647)

instance (t : tm) : Decidable t.inRange := by
  unfold tm.inRange; infer_instance

/-! ## Number formatting -/

/-- Decimal digits of a natural number, most significant first (`"0"` for 0). -/
def decimal (n : Nat) : List Char := Nat.toDigits 10 n

/-- The text `operator<<(int)` produces: a minus sign for negative values,
then the decimal digits. -/
def showInt (v : Int) : List Char :=
  if v < 0 then '-' :: decimal v.natAbs else decimal v.natAbs

/-- Padding on the left with the fill character up to the field width, as a
stream does for `std::setw(w)` with the default (right) adjustment. -/
def setw (w : Nat) (fill : Char) (s : List Char) : List Char :=
  List.replicate (w - s.length) fill ++ s

/-- A number printed by `strftime` with at least `w` digits, padded with
zeros; a negative value gets its sign in front of the zeros. -/
def strftimeNum (w : Nat) (v : Int) : List Char :=
  if v < 0 then '-' :: setw (w - 1) '0' (decimal v.natAbs)
  else setw w '0' (decimal v.natAbs)

/-- Expansion of a `strftime` format: the conversions `%Y %m %d %H %M %S`
are replaced by the matching field, every other character is copied. `%Y` is
the year as a decimal number with all its digits and no padding (the GNU C
library); the other five are zero-padded to two digits. -/
def strftimeExpand : List Char → tm → List Char
  | '%' :: 'Y' :: rest, t => strftimeNum 1 (t.tm_year + 1900) ++ strftimeExpand rest t
  | '%' :: 'm' :: rest, t => strftimeNum 2 (t.tm_mon + 1) ++ strftimeExpand rest t
  | '%' :: 'd' :: rest, t => strftimeNum 2 t.tm_mday ++ strftimeExpand rest t
  | '%' :: 'H' :: rest, t => strftimeNum 2 t.tm_hour ++ strftimeExpand rest t
  | '%' :: 'M' :: rest, t => strftimeNum 2 t.tm_min ++ strftimeExpand rest t
  | '%' :: 'S' :: rest, t => strftimeNum 2 t.tm_sec ++ strftimeExpand rest t
  | c :: rest, t => c :: strftimeExpand rest t
  | [], _ => []

/-- The call `strftime (s, maxsize, format, ptm)`: the expansion when it fits
the array together with its terminating NUL, and `none` otherwise (the call
then returns 0 and leaves the array contents unspecified). -/
def strftime (maxsize : Nat) (format : List Char) (t : tm) : Option (List Char) :=
  if (strftimeExpand format t).length + 1 ≤ maxsize then
    some (strftimeExpand format t)
  else none

/-- Conversion of a `long` to `int` on an LP64 machine: the value is reduced
modulo 2^32 into the range -2^31 .. 2^31 - 1. -/
def toInt32 (v : Int) : Int := (v + 2147483648) % 4294967296 - 2147483648

/-! ## `timestamp()` -/

/-- The format string of `timestamp()`. -/
def timestampFormat : List Char := "%Y-%m-%d_%H-%M-%S".data

/-- The function `timestamp()`. The clock reading `tv` is what `gettimeofday`
stored and `localtime` is the C library conversion to local calendar time.
The result is `none` when `strftime` could not fill `time_string[40]`. -/
def timestamp (localtime : Int → tm) (tv : timeval) : Option String :=
  let ptm := localtime tv.tv_sec
  match strftime 40 timestampFormat ptm with
  | none => none
  | some time_string =>
    let milliseconds : Int := Int.tdiv (toInt32 tv.tv_usec) 1000
    some (String.mk (time_string ++ "-".data ++ setw 3 '0' (showInt milliseconds)))

/-! ## IEEE-754 binary64 arithmetic

A finite `double` is a rational `m * 2 ^ e` with `|m| < 2 ^ 53` and
`-1074 ≤ e`. Arithmetic on doubles is the exact operation followed by
rounding to nearest, ties to even. Overflow to infinity is not represented:
the model is exact for results below `2 ^ 1024` in magnitude, and every
quantity the timer handles is below `2 ^ 64`. -/

/-- The type `Timer::Time`, a `double`, as the rational it denotes. -/
abbrev Time := ℚ

/-- Rounding of a rational to the nearest integer, a tie going to the even
neighbour. -/
def roundHalfEven (r : ℚ) : ℤ :=
  if r - ⌊r⌋ < 1 / 2 then ⌊r⌋
  else if 1 / 2 < r - ⌊r⌋ then ⌊r⌋ + 1
  else if ⌊r⌋ % 2 = 0 then ⌊r⌋ else ⌊r⌋ + 1

/-- Exponent of the unit in the last place of the binary64 numbers around a
non-negative `x`: 53 significant bits, subnormals below `2 ^ (-1022)`. -/
def ulpExponent (x : ℚ) : ℤ := max (Int.log 2 x - 52) (-1074)

/-- Rounding of a non-negative rational to binary64. -/
def roundMagnitude (x : ℚ) : ℚ :=
  roundHalfEven (x / 2 ^ ulpExponent x) * 2 ^ ulpExponent x

/-- Rounding of a rational to binary64 (sign and magnitude). -/
def roundDouble (x : ℚ) : ℚ :=
  if x < 0 then - roundMagnitude (-x) else roundMagnitude x

/-- Conversion of a `long` to `double`. -/
def longToDouble (n : Int) : Time := roundDouble n

/-- Addition of two doubles. -/
def doubleAdd (a b : Time) : Time := roundDouble (a + b)

/-- Division of two doubles (the divisor is not zero). -/
def doubleDiv (a b : Time) : Time := roundDouble (a / b)

/-! ## `class Timer` -/

/-- The only data member of `Timer`. -/
structure Timer where
  start : timeval
deriving DecidableEq, Repr

/-- The method `Timer::reset()`; `now` is what `gettimeofday` stores. -/
def Timer.reset (_self : Timer) (now : timeval) : Timer := { start := now }

/-- The constructor `Timer() { reset(); }`: whatever the member held before,
`reset` overwrites it. -/
def Timer.new (now : timeval) : Timer := Timer.reset { start := ⟨0, 0⟩ } now

/-- Arithmetic in a 64-bit `long`: the value is reduced modulo 2^64 into the
range -2^63 .. 2^63 - 1, which is what the subtraction of two `long` values
yields on the two's-complement machines the program runs on. -/
def toInt64 (v : Int) : Int :=
  (v + 9223372036854775808) % 18446744073709551616 - 9223372036854775808

/-- The method `Timer::getTimeSeconds() const`; `now` is what `gettimeofday`
stores in `end`. `time_t` and `suseconds_t` are 64-bit `long`: the two
differences are taken in `long`, each is converted to `double` by the
arithmetic conversions, `1E6` is the double 1000000, and the quotient and the
sum are double operations. -/
def Timer.getTimeSeconds (self : Timer) (now : timeval) : Time :=
  doubleAdd (longToDouble (toInt64 (now.tv_sec - self.start.tv_sec)))
    (doubleDiv (longToDouble (toInt64 (now.tv_usec - self.start.tv_usec))) 1000000)

/-- A call on a timer. -/
inductive TimerCall where
  | reset
  | getTimeSeconds
deriving DecidableEq, Repr

/-- One call on a timer with the clock reading the call obtains: the timer
afterwards and the value returned, if any. -/
def Timer.call (self : Timer) : TimerCall → timeval → Timer × Option Time
  | .reset, now => (self.reset now, none)
  | .getTimeSeconds, now => (self, some (self.getTimeSeconds now))

/-- A sequence of calls on a timer, each with its clock reading. -/
def Timer.calls (self : Timer) : List (TimerCall × timeval) → Timer
  | [] => self
  | (c, now) :: rest => Timer.calls (self.call c now).1 rest

/-- The reading of the most recent `reset()` in a sequence of calls, or
`ref` when the sequence has none. -/
def lastReset (ref : timeval) : List (TimerCall × timeval) → timeval
  | [] => ref
  | (.reset, now) :: rest => lastReset now rest
  | (.getTimeSeconds, _) :: rest => lastReset ref rest

/-- Instant `a` is not later than instant `b`. -/
def timeval.le (a b : timeval) : Prop :=
  a.tv_sec < b.tv_sec ∨ (a.tv_sec = b.tv_sec ∧ a.tv_usec ≤ b.tv_usec)

instance (a b : timeval) : Decidable (a.le b) := by
  unfold timeval.le; infer_instance

/-- The microsecond part of a reading is in `0 .. 999999`. -/
def timeval.usecInRange (a : timeval) : Prop := 0 ≤ a.tv_usec ∧ a.tv_usec ≤ 999999

instance (a : timeval) : Decidable a.usecInRange := by
  unfold timeval.usecInRange; infer_instance

/-- The exact number of seconds from `ref` to `now`. -/
def exactSeconds (ref now : timeval) : ℚ :=
  ((now.tv_sec - ref.tv_sec : Int) : ℚ) + ((now.tv_usec - ref.tv_usec : Int) : ℚ) / 1000000

/-- The number of seconds from `ref` to `now` with the two roundings of the
double computation: the quotient of the microseconds by 1000000 is rounded to
binary64, and so is its sum with the whole seconds. -/
def roundedSeconds (ref now : timeval) : ℚ :=
  roundDouble (((now.tv_sec - ref.tv_sec : Int) : ℚ) +
    roundDouble (((now.tv_usec - ref.tv_usec : Int) : ℚ) / 1000000))

/-! ## `main` -/

/-- An image (`cv::Mat`) as its pixel data; a default-constructed image is
empty. -/
abbrev Mat := List Nat

/-- The three local constants that configure `main`; the source sets
`display = false`, `use_buffer = true`, `BUFFER_MAX_SIZE = 100`. -/
structure Config where
  display : Bool
  use_buffer : Bool
  BUFFER_MAX_SIZE : Nat
deriving DecidableEq, Repr

/-- The configuration written in the source. -/
def sourceConfig : Config := { display := false, use_buffer := true, BUFFER_MAX_SIZE := 100 }

/-- What `main` takes from outside: the frame the camera delivers at its k-th
read, the reading `gettimeofday` gives at its k-th call, the C library
`localtime`, the value of the k-th `cv::waitKey`, and the image `cv::putText`
makes of an image and a text. The two last fields record what the C library
guarantees: `gettimeofday` stores microseconds in 0..999999 and `localtime`
fills the calendar fields within their ranges. -/
structure Env where
  camera : Nat → Mat
  clock : Nat → timeval
  localtime : Int → tm
  waitKey : Nat → Int
  putText : Mat → String → Mat
  clock_usec : ∀ k, (clock k).usecInRange
  localtime_inRange : ∀ t, (localtime t).inRange

/-- What `main` does to the outside, in order. -/
inductive Event where
  | capture (k : Nat)
  | allocate (size : Nat)
  | store (index : Nat)
  | printFps (elapsed : Time)
  | imshow (frame : Mat)
  | imwrite (file : String) (image : Mat)
  | release
deriving DecidableEq

/-- The variables of `main`, the number of camera reads, clock readings and
key polls made so far, and the events so far (oldest first). -/
structure State where
  frame_counter : Nat
  frames_buffer : List Mat
  frame_files : List String
  timer : Timer
  grabbed : Nat
  ticks : Nat
  polled : Nat
  trace : List Event

/-- Why a run stops without a result: the fuel ran out, `strftime` did not
fill its array, or a vector was indexed outside its size (undefined behaviour
in the source). -/
inductive Fault where
  | outOfFuel
  | strftimeFailed
  | indexOutOfRange
deriving DecidableEq, Repr

/-- The state when the `while` loop is reached: both vectors empty, the
counter zero, and the timer constructed from the first clock reading. -/
def initialState (env : Env) : State :=
  { frame_counter := 0, frames_buffer := [], frame_files := [],
    timer := Timer.new (env.clock 0), grabbed := 0, ticks := 1, polled := 0,
    trace := [] }

/-- Lines 104-111: on the first pass both vectors are resized to
`BUFFER_MAX_SIZE` and the frame is copied to every slot. -/
def createBuffers (cfg : Config) (frame : Mat) (st : State) : State :=
  if cfg.use_buffer && st.frames_buffer.isEmpty then
    { st with
      frame_files := List.replicate cfg.BUFFER_MAX_SIZE "",
      frames_buffer := List.replicate cfg.BUFFER_MAX_SIZE frame,
      trace := st.trace ++ Event.allocate cfg.BUFFER_MAX_SIZE ::
        (List.range cfg.BUFFER_MAX_SIZE).map Event.store }
  else st

/-- Lines 115-121: the frame and its file name go to slot `frame_counter`, or
the frame is written at once when buffering is off. -/
def keepFrame (cfg : Config) (frame : Mat) (filename : String) (st : State) :
    Except Fault State :=
  if cfg.use_buffer then
    if st.frame_counter < st.frames_buffer.length ∧ st.frame_counter < st.frame_files.length then
      .ok { st with
        frames_buffer := st.frames_buffer.set st.frame_counter frame,
        frame_files := st.frame_files.set st.frame_counter filename,
        trace := st.trace ++ [Event.store st.frame_counter] }
    else .error Fault.indexOutOfRange
  else
    .ok { st with trace := st.trace ++ [Event.imwrite filename frame] }

/-- Lines 123-127: the counter goes up and every tenth frame the timer is
read, the rate printed, and the timer reset. -/
def countFrame (env : Env) (st : State) : State :=
  let st1 := { st with frame_counter := st.frame_counter + 1 }
  if st1.frame_counter % 10 = 0 then
    { st1 with
      trace := st1.trace ++ [Event.printFps (st1.timer.getTimeSeconds (env.clock st1.ticks))],
      timer := st1.timer.reset (env.clock (st1.ticks + 1)),
      ticks := st1.ticks + 2 }
  else st1

/-- Lines 130-133: without preview the loop continues; with preview the frame
is shown and a key press breaks out of the loop. The Boolean is true for
`break`. -/
def preview (cfg : Config) (env : Env) (frame : Mat) (st : State) : State × Bool :=
  if !cfg.display then (st, false)
  else
    ({ st with trace := st.trace ++ [Event.imshow frame], polled := st.polled + 1 },
      decide (env.waitKey st.polled ≥ 0))

/-- One pass through the body of the `while` loop (lines 102-133). -/
def loopBody (cfg : Config) (env : Env) (st : State) : Except Fault (State × Bool) :=
  let frame := env.camera st.grabbed
  let st1 := { st with grabbed := st.grabbed + 1, trace := st.trace ++ [Event.capture st.grabbed] }
  let st2 := createBuffers cfg frame st1
  match timestamp env.localtime (env.clock st2.ticks) with
  | none => .error Fault.strftimeFailed
  | some stamp =>
    let filename := "/tmp/" ++ stamp ++ ".png"
    let st3 := { st2 with ticks := st2.ticks + 1 }
    match keepFrame cfg frame filename st3 with
    | .error e => .error e
    | .ok st4 => .ok (preview cfg env frame (countFrame env st4))

/-- At most `n` passes of `while (frame_counter < BUFFER_MAX_SIZE)`. The
Boolean tells whether the loop has been left, by its condition or by
`break`. -/
def iterations (cfg : Config) (env : Env) : Nat → State → Except Fault (State × Bool)
  | 0, st => .ok (st, decide (¬ st.frame_counter < cfg.BUFFER_MAX_SIZE))
  | n + 1, st =>
    if st.frame_counter < cfg.BUFFER_MAX_SIZE then
      match loopBody cfg env st with
      | .error e => .error e
      | .ok (st1, true) => .ok (st1, true)
      | .ok (st1, false) => iterations cfg env n st1
    else .ok (st, true)

/-- The whole `while` loop, run with the given fuel. -/
def captureLoop (cfg : Config) (env : Env) (fuel : Nat) (st : State) : Except Fault State :=
  match iterations cfg env fuel st with
  | .error e => .error e
  | .ok (st1, true) => .ok st1
  | .ok (_, false) => .error Fault.outOfFuel

/-- One pass of the write-out loop (lines 138-142) for index `i`: the file
name is drawn on slot `i` and the slot is written to that file. -/
def saveFrame (env : Env) (st : State) (i : Nat) : Except Fault State :=
  match st.frames_buffer[i]?, st.frame_files[i]? with
  | some image, some file =>
    let drawn := env.putText image file
    .ok { st with
      frames_buffer := st.frames_buffer.set i drawn,
      trace := st.trace ++ [Event.imwrite file drawn] }
  | _, _ => .error Fault.indexOutOfRange

/-- The write-out loop `for (i = 0; i < frame_counter; ++i)` from index `i`
with `todo` passes left. -/
def saveLoop (env : Env) : Nat → Nat → State → Except Fault State
  | 0, _, st => .ok st
  | todo + 1, i, st =>
    match saveFrame env st i with
    | .error e => .error e
    | .ok st1 => saveLoop env todo (i + 1) st1

/-- The state after the capture loop of `main`. Every pass raises
`frame_counter`, so `BUFFER_MAX_SIZE` passes are enough fuel. -/
def capturePhase (cfg : Config) (env : Env) : Except Fault State :=
  captureLoop cfg env cfg.BUFFER_MAX_SIZE (initialState env)

/-- The function `main`: capture loop, `cap.release()`, write-out loop. -/
def main (cfg : Config) (env : Env) : Except Fault State :=
  match capturePhase cfg env with
  | .error e => .error e
  | .ok st =>
    saveLoop env st.frame_counter 0 { st with trace := st.trace ++ [Event.release] }

/-! ## Vocabulary of the specification -/

/-- The numeral of `n` on exactly `w` decimal digits, most significant
first (the digits of `n` modulo `10 ^ w`). -/
def fixedDigits : Nat → Nat → List Char
  | 0, _ => []
  | w + 1, n => fixedDigits w (n / 10) ++ [Nat.digitChar (n % 10)]

/-- The text `YYYY-MM-DD_HH-MM-SS-mmm` of the specification for a calendar
time and a microsecond part `u`: the year on 4 digits, month, day, hour,
minute and second on 2 digits each, and `floor (u / 1000)` on 3 digits. -/
def specTimestamp (Y M D h m s u : Nat) : String :=
  String.mk (fixedDigits 4 Y ++ '-' :: fixedDigits 2 M ++ '-' :: fixedDigits 2 D ++
    '_' :: fixedDigits 2 h ++ '-' :: fixedDigits 2 m ++ '-' :: fixedDigits 2 s ++
    '-' :: fixedDigits 3 (u / 1000))

/-- One position of a pattern: any decimal digit, or one given character. -/
inductive PatternItem where
  | digit
  | literal (c : Char)
deriving DecidableEq, Repr

/-- A text matches a pattern when it has the pattern's length and fits it
position by position. -/
def matchesPattern : List PatternItem → List Char → Bool
  | [], [] => true
  | .digit :: ps, c :: cs => c.isDigit && matchesPattern ps cs
  | .literal l :: ps, c :: cs => (c == l) && matchesPattern ps cs
  | _, _ => false

/-- The pattern `\d{4}-\d{2}-\d{2}_\d{2}-\d{2}-\d{2}-\d{3}`. -/
def timestampPattern : List PatternItem :=
  List.replicate 4 .digit ++ .literal '-' :: List.replicate 2 .digit ++
  .literal '-' :: List.replicate 2 .digit ++ .literal '_' :: List.replicate 2 .digit ++
  .literal '-' :: List.replicate 2 .digit ++ .literal '-' :: List.replicate 2 .digit ++
  .literal '-' :: List.replicate 3 .digit

/-- The number a text of decimal digits denotes; `none` for an empty text or
one with another character. -/
def readDecimal (cs : List Char) : Option Nat :=
  if cs.all Char.isDigit && !cs.isEmpty then
    some (cs.foldl (fun acc c => 10 * acc + (c.toNat - 48)) 0)
  else none

/-- The characters the specification excludes from a file name component:
the path separators `/` and `\`, and `: * ? " < > |`, space and NUL. -/
def reservedChars : List Char :=
  ['/', Char.ofNat 92, ':', '*', '?', Char.ofNat 34, '<', '>', '|', ' ', Char.ofNat 0]

/-- The characters `timestamp()` is documented to use: decimal digits, `-`
and `_`. -/
def filenameFriendly (c : Char) : Prop := c.isDigit = true ∨ c = '-' ∨ c = '_'

instance (c : Char) : Decidable (filenameFriendly c) := by
  unfold filenameFriendly; infer_instance

/-- The millisecond field of the stamp of a reading. -/
def millisecondsOf (tv : timeval) : Int := Int.tdiv (toInt32 tv.tv_usec) 1000

/-- The part of a stamp after the year, for a calendar time with fields in
range and `ms` milliseconds: `-MM-DD_HH-MM-SS-mmm`. -/
def stampTail (t : tm) (ms : Nat) : List Char :=
  '-' :: fixedDigits 2 (t.tm_mon + 1).toNat ++ '-' :: fixedDigits 2 t.tm_mday.toNat ++
  '_' :: fixedDigits 2 t.tm_hour.toNat ++ '-' :: fixedDigits 2 t.tm_min.toNat ++
  '-' :: fixedDigits 2 t.tm_sec.toNat ++ '-' :: fixedDigits 3 ms

/-! ## Reading a trace -/

/-- The camera reads of a trace, in order. -/
def captures (tr : List Event) : List Nat :=
  tr.filterMap fun e => match e with
    | .capture k => some k
    | _ => none

/-- The sizes of the buffer allocations of a trace, in order. -/
def allocations (tr : List Event) : List Nat :=
  tr.filterMap fun e => match e with
    | .allocate n => some n
    | _ => none

/-- The buffer indices written in a trace, in order. -/
def storedIndices (tr : List Event) : List Nat :=
  tr.filterMap fun e => match e with
    | .store i => some i
    | _ => none

/-- The image files written in a trace, in order. -/
def written (tr : List Event) : List (String × Mat) :=
  tr.filterMap fun e => match e with
    | .imwrite file image => some (file, image)
    | _ => none

/-- The index of the clock reading that stamps frame `i`: one reading for the
timer's constructor, one per earlier frame, and two more (timer read and
reset) after every tenth frame. -/
def stampTick (i : Nat) : Nat := 1 + i + 2 * (i / 10)

/-- The file name frame `i` gets from a stamp. -/
def fileName (stamp : String) : String := "/tmp/" ++ stamp ++ ".png"

/-- What holds each time the condition of the `while` loop is evaluated in a
run with buffering: the counters agree, the vectors are empty before the
first pass and of full size afterwards, the slots below `frame_counter` hold
the frames and names in capture order, and the trace has one capture per
frame, one allocation, writes to slots below the capacity only, and neither a
file write nor the release of the camera. -/
structure LoopInvariant (cfg : Config) (env : Env) (st : State) : Prop where
  grabbed_eq : st.grabbed = st.frame_counter
  counter_le : st.frame_counter ≤ cfg.BUFFER_MAX_SIZE
  buffer_length : st.frames_buffer.length =
    if st.frame_counter = 0 then 0 else cfg.BUFFER_MAX_SIZE
  files_length : st.frame_files.length =
    if st.frame_counter = 0 then 0 else cfg.BUFFER_MAX_SIZE
  ticks_eq : st.ticks = stampTick st.frame_counter
  frames : ∀ i, i < st.frame_counter → st.frames_buffer[i]? = some (env.camera i)
  files : ∀ i, i < st.frame_counter → ∃ stamp,
    timestamp env.localtime (env.clock (stampTick i)) = some stamp ∧
    st.frame_files[i]? = some (fileName stamp)
  captures_eq : captures st.trace = List.range st.frame_counter
  allocations_eq : allocations st.trace =
    if st.frame_counter = 0 then [] else [cfg.BUFFER_MAX_SIZE]
  stores_lt : ∀ i, i ∈ storedIndices st.trace → i < cfg.BUFFER_MAX_SIZE
  written_eq : written st.trace = []
  not_released : Event.release ∉ st.trace

/-! ## Concrete inputs -/

/-- A `localtime` that answers 2024-03-07 09:05:02 for every instant. -/
def marchLocaltime : Int → tm := fun _ =>
  { tm_sec := 2, tm_min := 5, tm_hour := 9, tm_mday := 7, tm_mon := 2, tm_year := 124 }

/-- A `localtime` that answers 10000-03-07 09:05:02 for every instant. -/
def farLocaltime : Int → tm := fun _ =>
  { tm_sec := 2, tm_min := 5, tm_hour := 9, tm_mday := 7, tm_mon := 2, tm_year := 8100 }

/-- An environment whose clock advances 100 microseconds per reading from
2024-03-07 09:05:02.007000 local time, so that its first readings all fall in
the same millisecond; the camera delivers the frames `[0]`, `[1]`, `[2]`, ... -/
def burstEnv : Env :=
  { camera := fun k => [k],
    clock := fun k => { tv_sec := 1709802302, tv_usec := 7000 + 100 * ((k : Int) % 9) },
    localtime := marchLocaltime,
    waitKey := fun _ => -1,
    putText := fun image _ => image,
    clock_usec := fun k => by unfold timeval.usecInRange; constructor <;> simp only <;> omega,
    localtime_inRange := fun _ => by unfold marchLocaltime; decide }

/-- An environment whose clock advances 40 milliseconds per reading from
2024-03-07 09:05:02.000000 local time (within one second for the first 25
readings); the camera delivers the frames `[0]`, `[1]`, `[2]`, ... -/
def steadyEnv : Env :=
  { camera := fun k => [k],
    clock := fun k => { tv_sec := 1709802302, tv_usec := 40000 * ((k : Int) % 25) },
    localtime := marchLocaltime,
    waitKey := fun _ => -1,
    putText := fun image _ => image,
    clock_usec := fun k => by unfold timeval.usecInRange; constructor <;> simp only <;> omega,
    localtime_inRange := fun _ => by unfold marchLocaltime; decide }

/-! ## Facts about binary64 rounding -/

theorem roundHalfEven_intCast (n : ℤ) : roundHalfEven (n : ℚ) = n := by
  simp [roundHalfEven]

theorem floor_le_roundHalfEven (r : ℚ) : ⌊r⌋ ≤ roundHalfEven r := by
  unfold roundHalfEven; split_ifs <;> omega

theorem roundHalfEven_le_floor_succ (r : ℚ) : roundHalfEven r ≤ ⌊r⌋ + 1 := by
  unfold roundHalfEven; split_ifs <;> omega

theorem roundHalfEven_mono {r s : ℚ} (h : r ≤ s) : roundHalfEven r ≤ roundHalfEven s := by
  rcases lt_or_eq_of_le (Int.floor_mono h) with hlt | heq
  · calc roundHalfEven r ≤ ⌊r⌋ + 1 := roundHalfEven_le_floor_succ r
      _ ≤ ⌊s⌋ := hlt
      _ ≤ roundHalfEven s := floor_le_roundHalfEven s
  · unfold roundHalfEven
    rw [← heq]
    split_ifs <;> first | omega | (exfalso; linarith)

theorem roundHalfEven_of_abs_lt (r : ℚ) (n : ℤ) (h : |r - n| < 1 / 2) : roundHalfEven r = n := by
  rw [abs_lt] at h
  rcases le_or_lt (n : ℚ) r with hn | hn
  · have hf : ⌊r⌋ = n := by
      rw [Int.floor_eq_iff]; constructor <;> linarith
    unfold roundHalfEven
    rw [hf, if_pos (by linarith)]
  · have hf : ⌊r⌋ = n - 1 := by
      rw [Int.floor_eq_iff]; push_cast; constructor <;> linarith
    unfold roundHalfEven
    rw [hf]
    push_cast
    rw [if_neg (by linarith), if_pos (by linarith)]
    ring

theorem roundHalfEven_tie (r : ℚ) (n : ℤ) (h : r = n + 1 / 2) (hn : n % 2 = 0) :
    roundHalfEven r = n := by
  have hf : ⌊r⌋ = n := by
    rw [Int.floor_eq_iff]; constructor <;> linarith
  unfold roundHalfEven
  rw [hf, if_neg (by linarith), if_neg (by linarith), if_pos hn]

theorem two_zpow_pos (e : ℤ) : (0 : ℚ) < 2 ^ e := zpow_pos (by norm_num) e

theorem two_zpow_lt {a b : ℤ} (h : a < b) : (2 : ℚ) ^ a < 2 ^ b :=
  zpow_lt_zpow_right₀ (by norm_num) h

theorem two_zpow_le {a b : ℤ} (h : a ≤ b) : (2 : ℚ) ^ a ≤ 2 ^ b :=
  zpow_le_zpow_right₀ (by norm_num) h

theorem roundMagnitude_zero : roundMagnitude 0 = 0 := by
  simp [roundMagnitude, roundHalfEven]

theorem roundMagnitude_nonneg {x : ℚ} (hx : 0 ≤ x) : 0 ≤ roundMagnitude x := by
  unfold roundMagnitude
  have h0 : (0 : ℚ) ≤ x / 2 ^ ulpExponent x := div_nonneg hx (two_zpow_pos _).le
  have h1 : (0 : ℤ) ≤ roundHalfEven (x / 2 ^ ulpExponent x) := by
    have := roundHalfEven_mono h0
    rwa [show ((0 : ℚ)) = ((0 : ℤ) : ℚ) by simp, roundHalfEven_intCast] at this
  exact mul_nonneg (by exact_mod_cast h1) (two_zpow_pos _).le

theorem roundHalfEven_le_two_pow {r : ℚ} (t : ℕ) (h : r ≤ 2 ^ t) : (roundHalfEven r : ℚ) ≤ 2 ^ t := by
  have := roundHalfEven_mono h
  rw [show ((2 : ℚ) ^ t) = (((2 ^ t : ℕ) : ℤ) : ℚ) by push_cast; rfl, roundHalfEven_intCast] at this
  have h2 : ((roundHalfEven r : ℤ) : ℚ) ≤ (((2 ^ t : ℕ) : ℤ) : ℚ) := by exact_mod_cast this
  simpa using h2

theorem two_pow_le_roundHalfEven {r : ℚ} (t : ℕ) (h : 2 ^ t ≤ r) : (2 : ℚ) ^ t ≤ roundHalfEven r := by
  have := roundHalfEven_mono h
  rw [show ((2 : ℚ) ^ t) = (((2 ^ t : ℕ) : ℤ) : ℚ) by push_cast; rfl, roundHalfEven_intCast] at this
  have h2 : (((2 ^ t : ℕ) : ℤ) : ℚ) ≤ ((roundHalfEven r : ℤ) : ℚ) := by exact_mod_cast this
  simpa using h2

theorem roundMagnitude_le_two_zpow {x : ℚ} (e : ℤ)
    (h1 : Int.log 2 x + 1 ≤ e) (h2 : ulpExponent x ≤ e) : roundMagnitude x ≤ 2 ^ e := by
  unfold roundMagnitude
  set q := ulpExponent x with hq
  obtain ⟨t, ht⟩ : ∃ t : ℕ, (t : ℤ) = e - q := ⟨(e - q).toNat, Int.toNat_of_nonneg (by omega)⟩
  have hxe : x ≤ 2 ^ e :=
    ((Int.lt_zpow_succ_log_self (by norm_num : 1 < 2) x).le.trans (by exact_mod_cast two_zpow_le h1))
  have hr : x / 2 ^ q ≤ 2 ^ t := by
    rw [div_le_iff₀ (two_zpow_pos q), ← zpow_natCast, ← zpow_add₀ (by norm_num : (2 : ℚ) ≠ 0), ht]
    simpa using hxe
  have := roundHalfEven_le_two_pow t hr
  calc (roundHalfEven (x / 2 ^ q) : ℚ) * 2 ^ q ≤ 2 ^ t * 2 ^ q :=
        mul_le_mul_of_nonneg_right this (two_zpow_pos q).le
    _ = 2 ^ e := by
        rw [← zpow_natCast, ← zpow_add₀ (by norm_num : (2 : ℚ) ≠ 0), ht]; simp

theorem two_zpow_log_le_roundMagnitude {x : ℚ} (hx : 0 < x)
    (h : ulpExponent x = Int.log 2 x - 52) : (2 : ℚ) ^ Int.log 2 x ≤ roundMagnitude x := by
  unfold roundMagnitude
  rw [h]
  set e := Int.log 2 x with he
  have hxe : (2 : ℚ) ^ e ≤ x := by
    have := Int.zpow_log_le_self (by norm_num : 1 < 2) hx
    simpa using this
  have hr : (2 : ℚ) ^ 52 ≤ x / 2 ^ (e - 52) := by
    rw [le_div_iff₀ (two_zpow_pos _), ← zpow_natCast, ← zpow_add₀ (by norm_num : (2 : ℚ) ≠ 0)]
    simpa using hxe
  have := two_pow_le_roundHalfEven 52 hr
  calc (2 : ℚ) ^ e = 2 ^ (52 : ℕ) * 2 ^ (e - 52) := by
        rw [← zpow_natCast, ← zpow_add₀ (by norm_num : (2 : ℚ) ≠ 0)]; simp
    _ ≤ roundHalfEven (x / 2 ^ (e - 52)) * 2 ^ (e - 52) :=
        mul_le_mul_of_nonneg_right this (two_zpow_pos _).le

theorem roundMagnitude_mono {x y : ℚ} (hx : 0 ≤ x) (hxy : x ≤ y) :
    roundMagnitude x ≤ roundMagnitude y := by
  rcases eq_or_lt_of_le hx with h0 | hpos
  · rw [← h0, roundMagnitude_zero]; exact roundMagnitude_nonneg (hx.trans hxy)
  have hlog : Int.log 2 x ≤ Int.log 2 y := Int.log_mono_right hpos hxy
  have hq : ulpExponent x ≤ ulpExponent y := by
    unfold ulpExponent; exact max_le_max (by omega) le_rfl
  rcases eq_or_lt_of_le hq with heq | hlt
  · unfold roundMagnitude
    rw [← heq]
    have : x / 2 ^ ulpExponent x ≤ y / 2 ^ ulpExponent x :=
      div_le_div_of_nonneg_right hxy (two_zpow_pos _).le
    have := roundHalfEven_mono this
    exact mul_le_mul_of_nonneg_right (by exact_mod_cast this) (two_zpow_pos _).le
  · have hy : ulpExponent y = Int.log 2 y - 52 := by
      unfold ulpExponent at hlt ⊢
      have := le_max_right (Int.log 2 x - 52) (-1074)
      rw [max_eq_left]; by_contra hc; push_neg at hc
      rw [max_eq_right hc.le] at hlt; omega
    have hxl : Int.log 2 x - 52 ≤ ulpExponent x := le_max_left _ _
    calc roundMagnitude x ≤ 2 ^ Int.log 2 y :=
          roundMagnitude_le_two_zpow _ (by omega) (by omega)
      _ ≤ roundMagnitude y := two_zpow_log_le_roundMagnitude (hpos.trans_le hxy) hy

theorem roundDouble_mono {x y : ℚ} (hxy : x ≤ y) : roundDouble x ≤ roundDouble y := by
  unfold roundDouble
  split_ifs with hx hy hy
  · exact neg_le_neg (roundMagnitude_mono (by linarith) (by linarith))
  · have h1 := roundMagnitude_nonneg (show (0 : ℚ) ≤ -x by linarith)
    have h2 := roundMagnitude_nonneg (show (0 : ℚ) ≤ y by linarith)
    linarith
  · exfalso; linarith
  · exact roundMagnitude_mono (by linarith) hxy

theorem int_log_lt {x : ℚ} (hx : 0 < x) {e : ℤ} (h : x < 2 ^ e) : Int.log 2 x < e :=
  (Int.lt_zpow_iff_log_lt (by norm_num : 1 < 2) hx).1 (by simpa using h)

theorem int_log_eq {x : ℚ} {e : ℤ} (h1 : 2 ^ e ≤ x) (h2 : x < 2 ^ (e + 1)) : Int.log 2 x = e := by
  have hx : 0 < x := (two_zpow_pos e).trans_le h1
  have ha := int_log_lt hx h2
  have hb : e ≤ Int.log 2 x :=
    (Int.zpow_le_iff_le_log (by norm_num : 1 < 2) hx).1 (by simpa using h1)
  omega

theorem roundMagnitude_of_int_multiple (x : ℚ) (m : ℤ) (h : x = m * 2 ^ ulpExponent x) :
    roundMagnitude x = x := by
  unfold roundMagnitude
  have : x / 2 ^ ulpExponent x = m := by
    rw [div_eq_iff (two_zpow_pos _).ne']; exact h
  rw [this, roundHalfEven_intCast]; exact h.symm

theorem roundMagnitude_exact (n : ℕ) (e : ℤ) (he : -1074 ≤ e) (hn : n ≤ 2 ^ 53) :
    roundMagnitude (n * 2 ^ e) = n * 2 ^ e := by
  rcases Nat.eq_zero_or_pos n with h0 | hpos
  · subst h0; simp [roundMagnitude_zero]
  have hx : (0 : ℚ) < n * 2 ^ e := mul_pos (by exact_mod_cast hpos) (two_zpow_pos e)
  rcases eq_or_lt_of_le hn with h53 | hlt
  · -- the power of two 2 ^ (e + 53)
    have hxe : (n : ℚ) * 2 ^ e = 2 ^ (e + 53) := by
      rw [h53, zpow_add₀ (by norm_num : (2 : ℚ) ≠ 0)]; push_cast; ring
    have hlog : Int.log 2 ((n : ℚ) * 2 ^ e) = e + 53 := by
      rw [hxe]; exact int_log_eq le_rfl (two_zpow_lt (by omega))
    apply roundMagnitude_of_int_multiple _ (2 ^ 52)
    have hq : ulpExponent ((n : ℚ) * 2 ^ e) = e + 1 := by
      unfold ulpExponent; rw [hlog, max_eq_left (by omega)]; ring
    rw [hq, hxe, zpow_add₀ (by norm_num : (2 : ℚ) ≠ 0), zpow_add₀ (by norm_num : (2 : ℚ) ≠ 0)]
    push_cast; ring
  · have hxe : (n : ℚ) * 2 ^ e < 2 ^ (e + 53) := by
      rw [zpow_add₀ (by norm_num : (2 : ℚ) ≠ 0), mul_comm ((2 : ℚ) ^ e)]
      have : (n : ℚ) < 2 ^ (53 : ℤ) := by exact_mod_cast hlt
      exact mul_lt_mul_of_pos_right this (two_zpow_pos e)
    have hlog := int_log_lt hx hxe
    have hq : ulpExponent ((n : ℚ) * 2 ^ e) ≤ e := max_le (by omega) he
    obtain ⟨t, ht⟩ : ∃ t : ℕ, (t : ℤ) = e - ulpExponent ((n : ℚ) * 2 ^ e) :=
      ⟨_, Int.toNat_of_nonneg (by omega)⟩
    apply roundMagnitude_of_int_multiple _ (n * 2 ^ t)
    have : (2 : ℚ) ^ e = 2 ^ t * 2 ^ ulpExponent ((n : ℚ) * 2 ^ e) := by
      rw [← zpow_natCast, ← zpow_add₀ (by norm_num : (2 : ℚ) ≠ 0), ht]; simp
    push_cast
    rw [mul_assoc, ← this]

theorem roundDouble_exact (m : ℤ) (e : ℤ) (he : -1074 ≤ e) (hm : |m| ≤ 2 ^ 53) :
    roundDouble (m * 2 ^ e) = m * 2 ^ e := by
  have hnat : m.natAbs ≤ 2 ^ 53 := by
    have : (m.natAbs : ℤ) ≤ 2 ^ 53 := by rw [Int.natCast_natAbs]; exact hm
    exact_mod_cast this
  have key := roundMagnitude_exact m.natAbs e he hnat
  unfold roundDouble
  rcases lt_or_le m 0 with hneg | hpos
  · have hc : ((m.natAbs : ℕ) : ℚ) = -(m : ℚ) := by
      have h1 : ((m.natAbs : ℕ) : ℤ) = -m := by omega
      have h2 : (((m.natAbs : ℕ) : ℤ) : ℚ) = ((-m : ℤ) : ℚ) := by rw [h1]
      rw [Int.cast_natCast, Int.cast_neg] at h2
      exact h2
    rw [if_pos (mul_neg_of_neg_of_pos (by exact_mod_cast hneg) (two_zpow_pos e))]
    rw [hc] at key
    rw [show -((m : ℚ) * 2 ^ e) = -(m : ℚ) * 2 ^ e by ring, key]; ring
  · have hc : ((m.natAbs : ℕ) : ℚ) = (m : ℚ) := by
      have h1 : ((m.natAbs : ℕ) : ℤ) = m := by omega
      have h2 : (((m.natAbs : ℕ) : ℤ) : ℚ) = (m : ℚ) := by rw [h1]
      rw [Int.cast_natCast] at h2
      exact h2
    rw [if_neg (not_lt.2 (mul_nonneg (by exact_mod_cast hpos) (two_zpow_pos e).le))]
    rw [hc] at key
    exact key

theorem roundDouble_intCast (m : ℤ) (hm : |m| ≤ 2 ^ 53) : roundDouble (m : ℚ) = m := by
  have := roundDouble_exact m 0 (by norm_num) hm
  simpa using this

theorem roundDouble_error (x : ℚ) (k : ℤ) (hk : -1021 ≤ k) (hx : |x| ≤ 2 ^ k) :
    |roundDouble x - x| ≤ 2 ^ (k - 53) := by
  have hg : (0 : ℚ) < 2 ^ (k - 53) := two_zpow_pos _
  have hsplit : (2 : ℚ) ^ k = 2 ^ (53 : ℕ) * 2 ^ (k - 53) := by
    rw [← zpow_natCast, ← zpow_add₀ (by norm_num : (2 : ℚ) ≠ 0)]; simp
  rw [abs_le] at hx
  have hr1 : -(2 : ℚ) ^ (53 : ℕ) ≤ x / 2 ^ (k - 53) := by
    rw [le_div_iff₀ hg]; linarith
  have hr2 : x / 2 ^ (k - 53) ≤ (2 : ℚ) ^ (53 : ℕ) := by
    rw [div_le_iff₀ hg]; linarith
  have hlo1 : (-(2 ^ 53) : ℤ) ≤ ⌊x / 2 ^ (k - 53)⌋ := by
    rw [Int.le_floor]; push_cast; exact hr1
  have hhi1 : ⌈x / 2 ^ (k - 53)⌉ ≤ (2 ^ 53 : ℤ) := by
    rw [Int.ceil_le]; push_cast; exact hr2
  have hlh : ⌊x / 2 ^ (k - 53)⌋ ≤ ⌈x / 2 ^ (k - 53)⌉ := Int.floor_le_ceil _
  have hh1 : ⌈x / 2 ^ (k - 53)⌉ ≤ ⌊x / 2 ^ (k - 53)⌋ + 1 := Int.ceil_le_floor_add_one _
  have hlo : (⌊x / 2 ^ (k - 53)⌋ : ℚ) * 2 ^ (k - 53) ≤ x := by
    rw [← le_div_iff₀ hg]; exact Int.floor_le _
  have hhi : x ≤ (⌈x / 2 ^ (k - 53)⌉ : ℚ) * 2 ^ (k - 53) := by
    rw [← div_le_iff₀ hg]; exact Int.le_ceil _
  have e1 := roundDouble_exact ⌊x / 2 ^ (k - 53)⌋ (k - 53) (by omega) (by rw [abs_le]; omega)
  have e2 := roundDouble_exact ⌈x / 2 ^ (k - 53)⌉ (k - 53) (by omega) (by rw [abs_le]; omega)
  have m1 := roundDouble_mono hlo
  have m2 := roundDouble_mono hhi
  rw [e1] at m1
  rw [e2] at m2
  have hstep : (⌈x / 2 ^ (k - 53)⌉ : ℚ) * 2 ^ (k - 53) ≤
      (⌊x / 2 ^ (k - 53)⌋ : ℚ) * 2 ^ (k - 53) + 2 ^ (k - 53) := by
    have : (⌈x / 2 ^ (k - 53)⌉ : ℚ) ≤ (⌊x / 2 ^ (k - 53)⌋ : ℚ) + 1 := by exact_mod_cast hh1
    nlinarith
  rw [abs_le]; constructor <;> linarith

theorem roundDouble_of_abs_lt (x : ℚ) (e n : ℤ) (h1 : 2 ^ e ≤ x) (h2 : x < 2 ^ (e + 1))
    (he : -1022 ≤ e) (h : |x / 2 ^ (e - 52) - n| < 1 / 2) :
    roundDouble x = n * 2 ^ (e - 52) := by
  have hx : 0 < x := (two_zpow_pos e).trans_le h1
  have hq : ulpExponent x = e - 52 := by
    unfold ulpExponent; rw [int_log_eq h1 h2, max_eq_left (by omega)]
  unfold roundDouble roundMagnitude
  rw [if_neg (not_lt.2 hx.le), hq, roundHalfEven_of_abs_lt _ n h]

theorem roundDouble_tie (x : ℚ) (e n : ℤ) (h1 : 2 ^ e ≤ x) (h2 : x < 2 ^ (e + 1))
    (he : -1022 ≤ e) (h : x / 2 ^ (e - 52) = n + 1 / 2) (hn : n % 2 = 0) :
    roundDouble x = n * 2 ^ (e - 52) := by
  have hx : 0 < x := (two_zpow_pos e).trans_le h1
  have hq : ulpExponent x = e - 52 := by
    unfold ulpExponent; rw [int_log_eq h1 h2, max_eq_left (by omega)]
  unfold roundDouble roundMagnitude
  rw [if_neg (not_lt.2 hx.le), hq, roundHalfEven_tie _ n h hn]

/-! ## Facts about `Timer` -/

theorem roundDouble_zero : roundDouble 0 = 0 := by
  have := roundDouble_intCast 0 (by norm_num)
  simpa using this

theorem roundDouble_nonneg {x : ℚ} (hx : 0 ≤ x) : 0 ≤ roundDouble x := by
  have := roundDouble_mono hx
  rwa [roundDouble_zero] at this

theorem longToDouble_usec_diff (a b : timeval) (ha : a.usecInRange) (hb : b.usecInRange) :
    longToDouble (a.tv_usec - b.tv_usec) = ((a.tv_usec - b.tv_usec : Int) : ℚ) := by
  unfold timeval.usecInRange at ha hb
  exact roundDouble_intCast _ (by rw [abs_le]; constructor <;> omega)

/-- The quotient `(end.tv_usec - start.tv_usec) / 1E6` lies between -1 and 1
and within `2 ^ (-53)` of the exact quotient. -/
theorem usec_quotient_bounds (a b : timeval) (ha : a.usecInRange) (hb : b.usecInRange) :
    -1 ≤ doubleDiv (longToDouble (a.tv_usec - b.tv_usec)) 1000000 ∧
    doubleDiv (longToDouble (a.tv_usec - b.tv_usec)) 1000000 ≤ 1 ∧
    |doubleDiv (longToDouble (a.tv_usec - b.tv_usec)) 1000000 -
      ((a.tv_usec - b.tv_usec : Int) : ℚ) / 1000000| ≤ 2 ^ (-53 : ℤ) := by
  rw [longToDouble_usec_diff a b ha hb]
  unfold timeval.usecInRange at ha hb
  have h1 : (-999999 : ℚ) ≤ ((a.tv_usec - b.tv_usec : Int) : ℚ) := by
    have : (-999999 : Int) ≤ a.tv_usec - b.tv_usec := by omega
    exact_mod_cast this
  have h2 : ((a.tv_usec - b.tv_usec : Int) : ℚ) ≤ 999999 := by
    have : a.tv_usec - b.tv_usec ≤ (999999 : Int) := by omega
    exact_mod_cast this
  have hlo : (-1 : ℚ) ≤ ((a.tv_usec - b.tv_usec : Int) : ℚ) / 1000000 := by
    rw [le_div_iff₀ (by norm_num)]; linarith
  have hhi : ((a.tv_usec - b.tv_usec : Int) : ℚ) / 1000000 ≤ 1 := by
    rw [div_le_iff₀ (by norm_num)]; linarith
  have e1 : roundDouble (-1) = -1 := by
    have := roundDouble_intCast (-1) (by norm_num)
    simpa using this
  have e2 : roundDouble 1 = 1 := by
    have := roundDouble_intCast 1 (by norm_num)
    simpa using this
  refine ⟨?_, ?_, ?_⟩
  · have := roundDouble_mono hlo
    rwa [e1] at this
  · have := roundDouble_mono hhi
    rwa [e2] at this
  · have := roundDouble_error (((a.tv_usec - b.tv_usec : Int) : ℚ) / 1000000) 0 (by norm_num)
      (by rw [abs_le, zpow_zero]; exact ⟨hlo, hhi⟩)
    rw [show (0 : ℤ) - 53 = -53 by norm_num] at this
    exact this

theorem toInt64_of_fits (v : Int) (h1 : -9223372036854775808 ≤ v)
    (h2 : v ≤ 9223372036854775807) : toInt64 v = v := by
  unfold toInt64; omega

/-- When the difference of the seconds fits a `long`, the two subtractions of
`getTimeSeconds` do not wrap. -/
theorem getTimeSeconds_of_fits (self : Timer) (now : timeval)
    (href : self.start.usecInRange) (hnow : now.usecInRange)
    (h1 : -9223372036854775808 ≤ now.tv_sec - self.start.tv_sec)
    (h2 : now.tv_sec - self.start.tv_sec ≤ 9223372036854775807) :
    self.getTimeSeconds now =
      doubleAdd (longToDouble (now.tv_sec - self.start.tv_sec))
        (doubleDiv (longToDouble (now.tv_usec - self.start.tv_usec)) 1000000) := by
  unfold timeval.usecInRange at href hnow
  unfold Timer.getTimeSeconds
  rw [toInt64_of_fits _ h1 h2, toInt64_of_fits _ (by omega) (by omega)]

theorem roundDouble_neg (x : ℚ) : roundDouble (-x) = -roundDouble x := by
  unfold roundDouble
  rcases lt_trichotomy x 0 with h | h | h
  · rw [if_neg (by linarith), if_pos h, neg_neg]
  · subst h; simp [roundMagnitude_zero]
  · rw [if_pos (by linarith), if_neg (by linarith), neg_neg]

theorem calls_start (self : Timer) (history : List (TimerCall × timeval)) :
    (self.calls history).start = lastReset self.start history := by
  induction history generalizing self with
  | nil => rfl
  | cons c rest ih =>
    obtain ⟨c, now⟩ := c
    cases c <;> simp [Timer.calls, Timer.call, lastReset, ih, Timer.reset]

/-- When the whole seconds advance by at least one, the microsecond quotients,
each within `F` of its exact value, cannot make the sum go down. -/
theorem cross_second_step (D1 D2 B1 B2 u1 u2 F : ℚ) (hs : D1 + 1 ≤ D2)
    (hu : u1 - u2 ≤ 999999 / 1000000) (e1 : |B1 - u1| ≤ F) (e2 : |B2 - u2| ≤ F)
    (hF : F ≤ 1 / 4000000) : D1 + B1 ≤ D2 + B2 := by
  rw [abs_le] at e1 e2
  linarith [e1.1, e1.2, e2.1, e2.2]

/-- C4, as the code has it. The elapsed time is not negative relative to the
last `reset()` as long as the difference of the seconds fits the 64-bit `long`
in which it is computed: for a reference reading stored by `reset()` (the
constructor calls it too) and a current reading not earlier than it, both with
microseconds in 0..999999 and with `now_s - ref_s ≤ 2^63 - 1`,
`getTimeSeconds` returns a value `≥ 0`. -/
theorem getTimeSeconds_nonneg (self : Timer) (ref now : timeval)
    (href : ref.usecInRange) (hnow : now.usecInRange) (hle : ref.le now)
    (hfit : now.tv_sec - ref.tv_sec ≤ 9223372036854775807) :
    0 ≤ (self.reset ref).getTimeSeconds now := by
  obtain ⟨hq1, hq2, -⟩ := usec_quotient_bounds now ref hnow href
  have hs0 : 0 ≤ now.tv_sec - ref.tv_sec := by
    rcases hle with hlt | ⟨heq, -⟩ <;> omega
  rw [getTimeSeconds_of_fits (self.reset ref) now href hnow
    (by simp only [Timer.reset]; omega) (by simp only [Timer.reset]; exact hfit)]
  unfold doubleAdd
  simp only [Timer.reset]
  apply roundDouble_nonneg
  rcases hle with hlt | ⟨heq, hus⟩
  · have h1 : roundDouble 1 ≤ longToDouble (now.tv_sec - ref.tv_sec) := by
      apply roundDouble_mono
      have : (1 : Int) ≤ now.tv_sec - ref.tv_sec := by omega
      exact_mod_cast this
    have e1 : roundDouble 1 = 1 := by
      have := roundDouble_intCast 1 (by norm_num)
      simpa using this
    rw [e1] at h1
    linarith
  · have h0 : longToDouble (now.tv_sec - ref.tv_sec) = 0 := by
      rw [heq, sub_self]; unfold longToDouble; simpa using roundDouble_zero
    rw [h0, zero_add, longToDouble_usec_diff now ref hnow href]
    apply roundDouble_nonneg
    apply div_nonneg _ (by norm_num)
    have : (0 : Int) ≤ now.tv_usec - ref.tv_usec := by omega
    exact_mod_cast this

/-- Witness of C4 as amended: a reading 2.5 s after the reference. -/
theorem getTimeSeconds_nonneg_witness :
    0 ≤ ((Timer.new ⟨5, 0⟩).reset ⟨10, 750000⟩).getTimeSeconds ⟨13, 250000⟩ :=
  getTimeSeconds_nonneg (Timer.new ⟨5, 0⟩) ⟨10, 750000⟩ ⟨13, 250000⟩
    (by decide) (by decide) (by decide) (by decide)

/-- C4, as stated, fails when the difference of the seconds does not fit a
`long`. With the reference at (-2^62 - 1 s, 0 us) and the later reading
(2^62 s, 0 us), both with microseconds in range, the difference `2^63 + 1`
wraps to `-(2^63 - 1)` and `getTimeSeconds` returns `-2^63`. -/
theorem getTimeSeconds_negative :
    (⟨-4611686018427387905, 0⟩ : timeval).usecInRange ∧
    (⟨4611686018427387904, 0⟩ : timeval).usecInRange ∧
    (⟨-4611686018427387905, 0⟩ : timeval).le ⟨4611686018427387904, 0⟩ ∧
    ((Timer.new ⟨0, 0⟩).reset ⟨-4611686018427387905, 0⟩).getTimeSeconds
      ⟨4611686018427387904, 0⟩ = -9223372036854775808 ∧
    ¬ (0 ≤ ((Timer.new ⟨0, 0⟩).reset ⟨-4611686018427387905, 0⟩).getTimeSeconds
      ⟨4611686018427387904, 0⟩) := by
  have hval : ((Timer.new ⟨0, 0⟩).reset ⟨-4611686018427387905, 0⟩).getTimeSeconds
      ⟨4611686018427387904, 0⟩ = -9223372036854775808 := by
    simp only [Timer.getTimeSeconds, Timer.new, Timer.reset, doubleAdd, doubleDiv, longToDouble]
    have w1 : toInt64 (4611686018427387904 - -4611686018427387905) = -9223372036854775807 := by
      decide
    have w2 : toInt64 (0 - 0) = 0 := by decide
    rw [w1, w2]
    have a1 : roundDouble (((-9223372036854775807 : Int) : ℚ)) = -9223372036854775808 := by
      have hpos : roundDouble 9223372036854775807 = 9007199254740992 * 2 ^ ((62 : ℤ) - 52) :=
        roundDouble_of_abs_lt 9223372036854775807 62 9007199254740992 (by norm_num)
          (by norm_num) (by norm_num) (by rw [abs_lt]; constructor <;> norm_num)
      have hneg := roundDouble_neg 9223372036854775807
      rw [hpos] at hneg
      rw [show (((-9223372036854775807 : Int) : ℚ)) = -9223372036854775807 by norm_num, hneg]
      norm_num
    have b1 : roundDouble (((0 : Int) : ℚ)) = 0 := by simpa using roundDouble_zero
    rw [a1, b1, zero_div, roundDouble_zero, add_zero]
    have := roundDouble_exact (-9007199254740992) 10 (by norm_num) (by norm_num)
    norm_num at this ⊢
    exact this
  refine ⟨by decide, by decide, by decide, hval, ?_⟩
  rw [hval]
  norm_num

theorem two_step_error (R D B u E F P : ℚ) (h1 : |R - (D + B)| ≤ E) (h2 : |B - u| ≤ F)
    (h3 : F ≤ E) (h4 : E + E = P) : |R - (D + u)| ≤ P := by
  rw [abs_le] at h1 h2 ⊢
  constructor <;> linarith [h1.1, h1.2, h2.1, h2.2]

/-- C3, as the code has it. With the reference `(ref_s, ref_us)` the reading
of the constructor or of the most recent `reset()`, microseconds in 0..999999
and `|now_s - ref_s| + 1 ≤ 2 ^ k` for some `k ≤ 53`, `getTimeSeconds` returns
the double `fl ((now_s - ref_s) + fl ((now_us - ref_us) / 1000000))`, where
`fl` rounds a rational to the nearest binary64 number, ties to even; that
double is within `2 ^ k / 2 ^ 52` of the rational
`(now_s - ref_s) + (now_us - ref_us) / 1000000`. -/
theorem getTimeSeconds_rounded (r0 : timeval) (history : List (TimerCall × timeval))
    (now : timeval) (k : ℕ) (hk : k ≤ 53)
    (href : (lastReset r0 history).usecInRange) (hnow : now.usecInRange)
    (hspan : |now.tv_sec - (lastReset r0 history).tv_sec| + 1 ≤ 2 ^ k) :
    ((Timer.new r0).calls history).getTimeSeconds now =
      roundedSeconds (lastReset r0 history) now ∧
    |((Timer.new r0).calls history).getTimeSeconds now -
      exactSeconds (lastReset r0 history) now| ≤ 2 ^ k / 2 ^ 52 := by
  have hstart : ((Timer.new r0).calls history).start = lastReset r0 history := by
    rw [calls_start]; rfl
  set ref := lastReset r0 history with hrefdef
  obtain ⟨hq1, hq2, hq3⟩ := usec_quotient_bounds now ref hnow href
  have hpow : (2 : Int) ^ k ≤ 2 ^ 53 := pow_le_pow_right₀ (by norm_num) hk
  have habs := abs_le.1 (show |now.tv_sec - ref.tv_sec| ≤ 2 ^ 53 by omega)
  have hcode : ((Timer.new r0).calls history).getTimeSeconds now =
      doubleAdd (longToDouble (now.tv_sec - ref.tv_sec))
        (doubleDiv (longToDouble (now.tv_usec - ref.tv_usec)) 1000000) := by
    have := getTimeSeconds_of_fits ((Timer.new r0).calls history) now
      (by rw [hstart]; exact href) hnow (by rw [hstart]; omega) (by rw [hstart]; omega)
    rw [hstart] at this
    exact this
  have hA : longToDouble (now.tv_sec - ref.tv_sec) = ((now.tv_sec - ref.tv_sec : Int) : ℚ) :=
    roundDouble_intCast _ (by omega)
  have hU := longToDouble_usec_diff now ref hnow href
  have hval : ((Timer.new r0).calls history).getTimeSeconds now = roundedSeconds ref now := by
    rw [hcode, hA, hU]
    rfl
  refine ⟨hval, ?_⟩
  rw [hcode]
  unfold doubleAdd exactSeconds
  set B := doubleDiv (longToDouble (now.tv_usec - ref.tv_usec)) 1000000 with hB
  rw [hA]
  have hD : |((now.tv_sec - ref.tv_sec : Int) : ℚ)| + 1 ≤ 2 ^ k := by
    exact_mod_cast hspan
  have hS : |((now.tv_sec - ref.tv_sec : Int) : ℚ) + B| ≤ 2 ^ (k : ℤ) := by
    have hBabs : |B| ≤ 1 := abs_le.2 ⟨hq1, hq2⟩
    calc |((now.tv_sec - ref.tv_sec : Int) : ℚ) + B|
        ≤ |((now.tv_sec - ref.tv_sec : Int) : ℚ)| + |B| := abs_add _ _
      _ ≤ 2 ^ k := by linarith
      _ = 2 ^ (k : ℤ) := (zpow_natCast 2 k).symm
  have herr := roundDouble_error _ (k : ℤ) (by omega) hS
  have h53 : (2 : ℚ) ^ (-53 : ℤ) ≤ 2 ^ ((k : ℤ) - 53) := two_zpow_le (by omega)
  have hsum : (2 : ℚ) ^ ((k : ℤ) - 53) + 2 ^ ((k : ℤ) - 53) = 2 ^ k / 2 ^ 52 := by
    rw [zpow_sub₀ (by norm_num : (2 : ℚ) ≠ 0), zpow_natCast]
    norm_num
    ring
  exact two_step_error _ _ _ _ _ _ _ herr hq3 h53 hsum

/-- Witness of C3 as amended: the timer is constructed, read, reset at
(10 s, 999999 us) and read again; at the reading (11 s, 0 us), one microsecond
after the reset, the value is the twice-rounded sum of 1 and -999999/1000000. -/
theorem getTimeSeconds_rounded_witness :
    ((Timer.new ⟨5, 0⟩).calls
        [(.getTimeSeconds, ⟨7, 1⟩), (.reset, ⟨10, 999999⟩), (.getTimeSeconds, ⟨10, 999999⟩)]).getTimeSeconds
        ⟨11, 0⟩ = roundedSeconds ⟨10, 999999⟩ ⟨11, 0⟩ ∧
    |((Timer.new ⟨5, 0⟩).calls
        [(.getTimeSeconds, ⟨7, 1⟩), (.reset, ⟨10, 999999⟩), (.getTimeSeconds, ⟨10, 999999⟩)]).getTimeSeconds
        ⟨11, 0⟩ - exactSeconds ⟨10, 999999⟩ ⟨11, 0⟩| ≤ 2 ^ 1 / 2 ^ 52 :=
  getTimeSeconds_rounded ⟨5, 0⟩
    [(.getTimeSeconds, ⟨7, 1⟩), (.reset, ⟨10, 999999⟩), (.getTimeSeconds, ⟨10, 999999⟩)]
    ⟨11, 0⟩ 1 (by decide) (by decide) (by decide) (by decide)

/-- C3, as stated, fails: one microsecond after the reference the double
returned is 4722366482869645 / 2 ^ 72, which is not the rational 1 / 1000000. -/
theorem getTimeSeconds_not_exact :
    (Timer.new ⟨0, 0⟩).getTimeSeconds ⟨0, 1⟩ = 4722366482869645 / 2 ^ 72 ∧
    exactSeconds ⟨0, 0⟩ ⟨0, 1⟩ = 1 / 1000000 ∧
    (Timer.new ⟨0, 0⟩).getTimeSeconds ⟨0, 1⟩ ≠ exactSeconds ⟨0, 0⟩ ⟨0, 1⟩ := by
  have hval : (Timer.new ⟨0, 0⟩).getTimeSeconds ⟨0, 1⟩ = 4722366482869645 / 2 ^ 72 := by
    simp only [Timer.getTimeSeconds, Timer.new, Timer.reset, doubleAdd, doubleDiv, longToDouble]
    have w0 : toInt64 (0 - 0) = 0 := by decide
    have w1 : toInt64 (1 - 0) = 1 := by decide
    rw [w0, w1]
    have e0 : roundDouble (((0 : Int) : ℚ)) = 0 := by simpa using roundDouble_zero
    have e1 : roundDouble (((1 : Int) : ℚ)) = 1 := by
      have := roundDouble_intCast 1 (by norm_num)
      simpa using this
    rw [e0, e1, zero_add]
    have e2 : roundDouble (1 / 1000000) = 4722366482869645 * 2 ^ (-72 : ℤ) := by
      rw [roundDouble_of_abs_lt (1 / 1000000) (-20) 4722366482869645 (by norm_num)
        (by norm_num) (by norm_num) (by rw [abs_lt]; constructor <;> norm_num)]
      norm_num
    rw [e2]
    have := roundDouble_exact 4722366482869645 (-72) (by norm_num) (by norm_num)
    rw [show ((4722366482869645 : ℤ) : ℚ) = 4722366482869645 by norm_num] at this
    rw [this]
    norm_num
  have hex : exactSeconds ⟨0, 0⟩ ⟨0, 1⟩ = 1 / 1000000 := by
    norm_num [exactSeconds]
  refine ⟨hval, hex, ?_⟩
  rw [hval, hex]
  norm_num

/-- C8, as the code has it. For a stored reference and two readings `t1`
then `t2` (microseconds in 0..999999, `t2` not earlier than `t1`, no `reset()`
between them) that are both within `2 ^ 53` seconds of the reference, the
second call of `getTimeSeconds` returns at least what the first returned, and
neither call changes the stored reference. -/
theorem getTimeSeconds_monotone (self : Timer) (t1 t2 : timeval)
    (href : self.start.usecInRange) (h1 : t1.usecInRange) (h2 : t2.usecInRange)
    (hle : t1.le t2)
    (hb1 : |t1.tv_sec - self.start.tv_sec| ≤ 2 ^ 53)
    (hb2 : |t2.tv_sec - self.start.tv_sec| ≤ 2 ^ 53) :
    (self.call .getTimeSeconds t1).2 = some (self.getTimeSeconds t1) ∧
    ((self.call .getTimeSeconds t1).1.call .getTimeSeconds t2).2 =
      some (self.getTimeSeconds t2) ∧
    self.getTimeSeconds t1 ≤ self.getTimeSeconds t2 ∧
    (self.call .getTimeSeconds t1).1 = self ∧
    ((self.call .getTimeSeconds t1).1.call .getTimeSeconds t2).1 = self := by
  refine ⟨rfl, rfl, ?_, rfl, rfl⟩
  obtain ⟨-, -, e1⟩ := usec_quotient_bounds t1 self.start h1 href
  obtain ⟨-, -, e2⟩ := usec_quotient_bounds t2 self.start h2 href
  have hr1 := abs_le.1 hb1
  have hr2 := abs_le.1 hb2
  rw [getTimeSeconds_of_fits self t1 href h1 (by omega) (by omega),
    getTimeSeconds_of_fits self t2 href h2 (by omega) (by omega)]
  unfold doubleAdd
  apply roundDouble_mono
  have hA1 : longToDouble (t1.tv_sec - self.start.tv_sec) =
      ((t1.tv_sec - self.start.tv_sec : Int) : ℚ) := roundDouble_intCast _ hb1
  have hA2 : longToDouble (t2.tv_sec - self.start.tv_sec) =
      ((t2.tv_sec - self.start.tv_sec : Int) : ℚ) := roundDouble_intCast _ hb2
  rw [hA1, hA2]
  rcases hle with hlt | ⟨heq, hus⟩
  · have hs : ((t1.tv_sec - self.start.tv_sec : Int) : ℚ) + 1 ≤
        ((t2.tv_sec - self.start.tv_sec : Int) : ℚ) := by
      have : t1.tv_sec - self.start.tv_sec + 1 ≤ t2.tv_sec - self.start.tv_sec := by omega
      exact_mod_cast this
    have hu : ((t1.tv_usec - self.start.tv_usec : Int) : ℚ) / 1000000 -
        ((t2.tv_usec - self.start.tv_usec : Int) : ℚ) / 1000000 ≤ 999999 / 1000000 := by
      unfold timeval.usecInRange at h1 h2
      have : (t1.tv_usec - self.start.tv_usec) - (t2.tv_usec - self.start.tv_usec) ≤
          (999999 : Int) := by omega
      have hc : ((t1.tv_usec - self.start.tv_usec : Int) : ℚ) -
          ((t2.tv_usec - self.start.tv_usec : Int) : ℚ) ≤ 999999 := by exact_mod_cast this
      linarith
    have hsmall : (2 : ℚ) ^ (-53 : ℤ) ≤ 1 / 4000000 := by norm_num
    exact cross_second_step _ _ _ _ _ _ _ hs hu e1 e2 hsmall
  · rw [heq]
    apply add_le_add_left
    unfold doubleDiv
    apply roundDouble_mono
    apply div_le_div_of_nonneg_right _ (by norm_num)
    apply roundDouble_mono
    have : t1.tv_usec - self.start.tv_usec ≤ t2.tv_usec - self.start.tv_usec := by omega
    exact_mod_cast this

/-- Witness of C8 as amended: reference (10 s, 750000 us), readings
(13 s, 250000 us) and (14 s, 100 us). -/
theorem getTimeSeconds_monotone_witness :
    (Timer.new ⟨10, 750000⟩).getTimeSeconds ⟨13, 250000⟩ ≤
      (Timer.new ⟨10, 750000⟩).getTimeSeconds ⟨14, 100⟩ ∧
    ((Timer.new ⟨10, 750000⟩).call .getTimeSeconds ⟨13, 250000⟩).1 = Timer.new ⟨10, 750000⟩ :=
  have h := getTimeSeconds_monotone (Timer.new ⟨10, 750000⟩) ⟨13, 250000⟩ ⟨14, 100⟩
    (by decide) (by decide) (by decide) (by decide) (by decide) (by decide)
  ⟨h.2.2.1, h.2.2.2.1⟩

/-- C8, as stated, fails for readings far from the reference. With the
reference at (0 s, 750000 us), the reading (2^53 s, 500000 us) gives
`2 ^ 53` and the later reading (2^53 + 1 s, 0 us) gives `2 ^ 53 - 1`: the
conversion of `2 ^ 53 + 1` seconds to `double` drops the odd second. -/
theorem getTimeSeconds_not_monotone :
    (Timer.new ⟨0, 750000⟩).start.usecInRange ∧
    (⟨9007199254740992, 500000⟩ : timeval).usecInRange ∧
    (⟨9007199254740993, 0⟩ : timeval).usecInRange ∧
    (⟨9007199254740992, 500000⟩ : timeval).le ⟨9007199254740993, 0⟩ ∧
    (Timer.new ⟨0, 750000⟩).getTimeSeconds ⟨9007199254740992, 500000⟩ = 9007199254740992 ∧
    (Timer.new ⟨0, 750000⟩).getTimeSeconds ⟨9007199254740993, 0⟩ = 9007199254740991 ∧
    ¬ ((Timer.new ⟨0, 750000⟩).getTimeSeconds ⟨9007199254740992, 500000⟩ ≤
      (Timer.new ⟨0, 750000⟩).getTimeSeconds ⟨9007199254740993, 0⟩) := by
  have v1 : (Timer.new ⟨0, 750000⟩).getTimeSeconds ⟨9007199254740992, 500000⟩ =
      9007199254740992 := by
    simp only [Timer.getTimeSeconds, Timer.new, Timer.reset, doubleAdd, doubleDiv, longToDouble]
    have w1 : toInt64 (9007199254740992 - 0) = 9007199254740992 := by decide
    have w2 : toInt64 (500000 - 750000) = -250000 := by decide
    rw [w1, w2]
    have a1 : roundDouble (((9007199254740992 : Int) : ℚ)) = 9007199254740992 := by
      have := roundDouble_intCast 9007199254740992 (by norm_num)
      simpa using this
    have b1 : roundDouble (((-250000 : Int) : ℚ)) = -250000 := by
      have := roundDouble_intCast (-250000) (by norm_num)
      simpa using this
    have c1 : roundDouble (-250000 / 1000000) = -1 / 4 := by
      have := roundDouble_exact (-1) (-2) (by norm_num) (by norm_num)
      norm_num at this ⊢
      exact this
    have d1 : roundDouble (9007199254740992 + -1 / 4) = 9007199254740992 := by
      rw [roundDouble_of_abs_lt _ 52 9007199254740992 (by norm_num) (by norm_num)
        (by norm_num) (by rw [abs_lt]; constructor <;> norm_num)]
      norm_num
    rw [a1, b1, c1, d1]
  have v2 : (Timer.new ⟨0, 750000⟩).getTimeSeconds ⟨9007199254740993, 0⟩ =
      9007199254740991 := by
    simp only [Timer.getTimeSeconds, Timer.new, Timer.reset, doubleAdd, doubleDiv, longToDouble]
    have w1 : toInt64 (9007199254740993 - 0) = 9007199254740993 := by decide
    have w2 : toInt64 (0 - 750000) = -750000 := by decide
    rw [w1, w2]
    have a2 : roundDouble (((9007199254740993 : Int) : ℚ)) = 9007199254740992 := by
      have := roundDouble_tie 9007199254740993 53 4503599627370496 (by norm_num) (by norm_num)
        (by norm_num) (by norm_num) (by norm_num)
      norm_num at this ⊢
      exact this
    have b2 : roundDouble (((-750000 : Int) : ℚ)) = -750000 := by
      have := roundDouble_intCast (-750000) (by norm_num)
      simpa using this
    have c2 : roundDouble (-750000 / 1000000) = -3 / 4 := by
      have := roundDouble_exact (-3) (-2) (by norm_num) (by norm_num)
      norm_num at this ⊢
      exact this
    have d2 : roundDouble (9007199254740992 + -3 / 4) = 9007199254740991 := by
      rw [roundDouble_of_abs_lt _ 52 9007199254740991 (by norm_num) (by norm_num)
        (by norm_num) (by rw [abs_lt]; constructor <;> norm_num)]
      norm_num
    rw [a2, b2, c2, d2]
  refine ⟨by decide, by decide, by decide, by decide, v1, v2, ?_⟩
  rw [v1, v2]
  norm_num

/-! ## Facts about number formatting -/

theorem fixedDigits_length (w n : Nat) : (fixedDigits w n).length = w := by
  induction w generalizing n with
  | zero => rfl
  | succ w ih => simp [fixedDigits, ih]

theorem toDigitsCore_eq_fixedDigits (w : Nat) :
    ∀ (f n : Nat) (ds : List Char), n < 10 ^ (w + 1) → (w = 0 ∨ 10 ^ w ≤ n) → n < f →
      Nat.toDigitsCore 10 f n ds = fixedDigits (w + 1) n ++ ds := by
  induction w with
  | zero =>
    intro f n ds h1 _ h3
    obtain ⟨f, rfl⟩ : ∃ g, f = g + 1 := ⟨f - 1, by omega⟩
    have : n / 10 = 0 := by omega
    simp [Nat.toDigitsCore, fixedDigits, this]
  | succ w ih =>
    intro f n ds h1 h2 h3
    have hw : 10 ^ (w + 1) ≤ n := by
      rcases h2 with h | h
      · omega
      · exact h
    have hpos : 0 < 10 ^ w := pow_pos (by norm_num) w
    have h10 : 10 ^ (w + 1) = 10 * 10 ^ w := by rw [pow_succ]; ring
    have h100 : 10 ^ (w + 1 + 1) = 10 * 10 ^ (w + 1) := by rw [pow_succ]; ring
    obtain ⟨f, rfl⟩ : ∃ g, f = g + 1 := ⟨f - 1, by omega⟩
    have hne : n / 10 ≠ 0 := by omega
    have hq1 : n / 10 < 10 ^ (w + 1) := by omega
    have hq2 : w = 0 ∨ 10 ^ w ≤ n / 10 := Or.inr (by omega)
    have hq3 : n / 10 < f := by omega
    rw [Nat.toDigitsCore]
    simp only [hne, if_false]
    rw [ih f (n / 10) _ hq1 hq2 hq3]
    conv_rhs => rw [fixedDigits]
    simp

theorem decimal_eq_fixedDigits (w n : Nat) (h1 : n < 10 ^ (w + 1)) (h2 : w = 0 ∨ 10 ^ w ≤ n) :
    decimal n = fixedDigits (w + 1) n := by
  unfold decimal Nat.toDigits
  rw [toDigitsCore_eq_fixedDigits w (n + 1) n [] h1 h2 (by omega)]
  simp

theorem exists_width (n : Nat) : ∃ w, n < 10 ^ (w + 1) ∧ (w = 0 ∨ 10 ^ w ≤ n) := by
  refine ⟨Nat.log 10 n, Nat.lt_pow_succ_log_self (by norm_num) n, ?_⟩
  rcases Nat.eq_zero_or_pos n with h | h
  · left; subst h; simp
  · right; exact Nat.pow_log_le_self 10 (by omega)

theorem fixedDigits_zero (j : Nat) : fixedDigits j 0 = List.replicate j '0' := by
  induction j with
  | zero => rfl
  | succ j ih =>
    rw [fixedDigits, Nat.zero_div, ih, List.replicate_succ']
    rfl

theorem fixedDigits_pad (k : Nat) : ∀ (j n : Nat), n < 10 ^ k →
    fixedDigits (j + k) n = List.replicate j '0' ++ fixedDigits k n := by
  induction k with
  | zero =>
    intro j n h
    have : n = 0 := by simpa using h
    subst this
    simp [fixedDigits_zero, fixedDigits]
  | succ k ih =>
    intro j n h
    have h10 : 10 ^ (k + 1) = 10 * 10 ^ k := by rw [pow_succ]; ring
    have hq : n / 10 < 10 ^ k := by omega
    rw [show j + (k + 1) = (j + k) + 1 by ring, fixedDigits, ih j (n / 10) hq]
    conv_rhs => rw [fixedDigits]
    simp

theorem setw_decimal (w n : Nat) (hw : 0 < w) (h : n < 10 ^ w) :
    setw w '0' (decimal n) = fixedDigits w n := by
  obtain ⟨k, hk1, hk2⟩ := exists_width n
  have hkw : k + 1 ≤ w := by
    by_contra hc
    push_neg at hc
    rcases hk2 with h0 | h0
    · omega
    · have : 10 ^ w ≤ 10 ^ k := Nat.pow_le_pow_right (by norm_num) (by omega)
      omega
  rw [decimal_eq_fixedDigits k n hk1 hk2]
  unfold setw
  rw [fixedDigits_length]
  obtain ⟨j, rfl⟩ : ∃ j, w = j + (k + 1) := ⟨w - (k + 1), by omega⟩
  rw [fixedDigits_pad (k + 1) j n hk1]
  simp

theorem digitChar_isDigit (d : Nat) (h : d < 10) : (Nat.digitChar d).isDigit = true := by
  interval_cases d <;> rfl

theorem digitChar_value (d : Nat) (h : d < 10) : (Nat.digitChar d).toNat - 48 = d := by
  interval_cases d <;> rfl

theorem fixedDigits_isDigit (w n : Nat) : ∀ c ∈ fixedDigits w n, c.isDigit = true := by
  induction w generalizing n with
  | zero => intro c hc; simp [fixedDigits] at hc
  | succ w ih =>
    intro c hc
    rw [fixedDigits, List.mem_append] at hc
    rcases hc with hc | hc
    · exact ih _ c hc
    · rw [List.mem_singleton] at hc
      rw [hc]; exact digitChar_isDigit _ (Nat.mod_lt _ (by norm_num))

/-! ## Facts about `timestamp()` -/

theorem strftimeExpand_timestampFormat (t : tm) :
    strftimeExpand timestampFormat t =
      strftimeNum 1 (t.tm_year + 1900) ++ '-' :: (strftimeNum 2 (t.tm_mon + 1) ++
      '-' :: (strftimeNum 2 t.tm_mday ++ '_' :: (strftimeNum 2 t.tm_hour ++
      '-' :: (strftimeNum 2 t.tm_min ++ '-' :: strftimeNum 2 t.tm_sec)))) := by
  simp [timestampFormat, strftimeExpand]

theorem strftimeNum_two (v : Int) (h0 : 0 ≤ v) (h1 : v ≤ 99) :
    strftimeNum 2 v = fixedDigits 2 v.toNat := by
  unfold strftimeNum
  rw [if_neg (by omega)]
  have : v.natAbs = v.toNat := by omega
  rw [this]
  exact setw_decimal 2 _ (by norm_num) (by omega)

theorem setw_one_decimal (n : Nat) : setw 1 '0' (decimal n) = decimal n := by
  obtain ⟨k, hk1, hk2⟩ := exists_width n
  rw [decimal_eq_fixedDigits k n hk1 hk2]
  unfold setw
  rw [fixedDigits_length]
  simp

theorem setw_zero (s : List Char) : setw 0 '0' s = s := by
  simp [setw]

/-- The text of `%Y`: an optional minus sign and the digits of the year,
at most 10 of them for a year that fits an `int`. -/
theorem yearText_cases (y : Int) (h1 : -2147483648 ≤ y) (h2 : y ≤ 2147483647) :
    ∃ k, k ≤ 9 ∧ y.natAbs < 10 ^ (k + 1) ∧ (k = 0 ∨ 10 ^ k ≤ y.natAbs) ∧
      strftimeNum 1 y = (if y < 0 then ['-'] else []) ++ fixedDigits (k + 1) y.natAbs := by
  obtain ⟨k, hk1, hk2⟩ := exists_width y.natAbs
  have hk : k ≤ 9 := by
    by_contra hc
    push_neg at hc
    rcases hk2 with h0 | h0
    · omega
    · have : 10 ^ 10 ≤ 10 ^ k := Nat.pow_le_pow_right (by norm_num) (by omega)
      omega
  refine ⟨k, hk, hk1, hk2, ?_⟩
  unfold strftimeNum
  split_ifs with hneg
  · rw [show (1 - 1 : Nat) = 0 by rfl, setw_zero, decimal_eq_fixedDigits k _ hk1 hk2]
    rfl
  · rw [setw_one_decimal, decimal_eq_fixedDigits k _ hk1 hk2]
    rfl

theorem yearText_four (y : Int) (h1 : 1000 ≤ y) (h2 : y ≤ 9999) :
    strftimeNum 1 y = fixedDigits 4 y.toNat := by
  unfold strftimeNum
  rw [if_neg (by omega), setw_one_decimal]
  have : y.natAbs = y.toNat := by omega
  rw [this]
  exact decimal_eq_fixedDigits 3 _ (by omega) (Or.inr (by omega))

theorem millisecondsOf_inRange (tv : timeval) (hu : tv.usecInRange) :
    millisecondsOf tv = ((tv.tv_usec.toNat / 1000 : Nat) : Int) ∧ tv.tv_usec.toNat / 1000 ≤ 999 := by
  unfold timeval.usecInRange at hu
  unfold millisecondsOf toInt32
  have h32 : (tv.tv_usec + 2147483648) % 4294967296 - 2147483648 = tv.tv_usec := by omega
  rw [h32, Int.tdiv_eq_ediv (by omega) (by norm_num)]
  constructor <;> omega

theorem showInt_milliseconds (tv : timeval) (hu : tv.usecInRange) :
    setw 3 '0' (showInt (millisecondsOf tv)) = fixedDigits 3 (tv.tv_usec.toNat / 1000) := by
  obtain ⟨h1, h2⟩ := millisecondsOf_inRange tv hu
  rw [h1]
  unfold showInt
  rw [if_neg (by omega)]
  simp only [Int.natAbs_ofNat]
  exact setw_decimal 3 _ (by norm_num) (by omega)

/-- For a calendar time with fields in range and microseconds in range,
`strftime` fills the array and the stamp is the year text followed by the
fixed-width fields. -/
theorem timestamp_inRange (localtime : Int → tm) (tv : timeval)
    (h : (localtime tv.tv_sec).inRange) (hu : tv.usecInRange) :
    timestamp localtime tv = some (String.mk (strftimeNum 1 ((localtime tv.tv_sec).tm_year + 1900) ++
      stampTail (localtime tv.tv_sec) (tv.tv_usec.toNat / 1000))) := by
  obtain ⟨⟨s0, s1⟩, ⟨m0, m1⟩, ⟨h0, h1⟩, ⟨d0, d1⟩, ⟨o0, o1⟩, y0, y1⟩ := h
  obtain ⟨k, hk, -, -, hy⟩ := yearText_cases _ y0 y1
  have hms := showInt_milliseconds tv hu
  unfold millisecondsOf at hms
  have hexp : strftimeExpand timestampFormat (localtime tv.tv_sec) =
      strftimeNum 1 ((localtime tv.tv_sec).tm_year + 1900) ++ '-' ::
      (fixedDigits 2 ((localtime tv.tv_sec).tm_mon + 1).toNat ++ '-' ::
      (fixedDigits 2 (localtime tv.tv_sec).tm_mday.toNat ++ '_' ::
      (fixedDigits 2 (localtime tv.tv_sec).tm_hour.toNat ++ '-' ::
      (fixedDigits 2 (localtime tv.tv_sec).tm_min.toNat ++ '-' ::
      fixedDigits 2 (localtime tv.tv_sec).tm_sec.toNat)))) := by
    rw [strftimeExpand_timestampFormat, strftimeNum_two _ (by omega) (by omega),
      strftimeNum_two _ (by omega) (by omega), strftimeNum_two _ (by omega) (by omega),
      strftimeNum_two _ (by omega) (by omega), strftimeNum_two _ (by omega) (by omega)]
  have hlen : (strftimeExpand timestampFormat (localtime tv.tv_sec)).length + 1 ≤ 40 := by
    rw [hexp, hy]
    simp only [List.length_append, List.length_cons, fixedDigits_length]
    split_ifs <;> simp <;> omega
  unfold timestamp strftime
  simp only [hlen, if_true, hms]
  rw [hexp]
  simp [stampTail]

/-- C1. For an instant whose local calendar time is year `Y` (1000..9999),
month `M`, day `D`, hour `h`, minute `m`, second `s`, with microsecond part
`u` in 0..999999, `timestamp()` returns exactly `Y-M-D_h-m-s-mmm`: the year on
4 digits, the other fields zero-padded to 2 digits, and `floor (u / 1000)`
zero-padded to 3 digits. -/
theorem timestamp_format (localtime : Int → tm) (tv : timeval) (Y M D h m s u : Nat)
    (hY : 1000 ≤ Y ∧ Y ≤ 9999) (hM : 1 ≤ M ∧ M ≤ 12) (hD : 1 ≤ D ∧ D ≤ 31)
    (hh : h ≤ 23) (hm : m ≤ 59) (hs : s ≤ 60) (hu : u ≤ 999999)
    (hlocal : localtime tv.tv_sec =
      { tm_sec := s, tm_min := m, tm_hour := h, tm_mday := D, tm_mon := (M : Int) - 1,
        tm_year := (Y : Int) - 1900 })
    (husec : tv.tv_usec = u) :
    timestamp localtime tv = some (specTimestamp Y M D h m s u) := by
  have hr : (localtime tv.tv_sec).inRange := by
    rw [hlocal]; unfold tm.inRange; simp only; omega
  have hur : tv.usecInRange := by
    unfold timeval.usecInRange; omega
  rw [timestamp_inRange localtime tv hr hur, hlocal, husec]
  simp only [stampTail, specTimestamp]
  rw [yearText_four _ (by omega) (by omega)]
  simp

/-- Witness of C1, the example of the specification: 2024-03-07 09:05:02
local time with 7000 microseconds gives `2024-03-07_09-05-02-007`. -/
theorem timestamp_format_witness :
    timestamp marchLocaltime ⟨1709802302, 7000⟩ = some "2024-03-07_09-05-02-007" :=
  (timestamp_format marchLocaltime ⟨1709802302, 7000⟩ 2024 3 7 9 5 2 7000
    (by decide) (by decide) (by decide) (by decide) (by decide) (by decide) (by decide)
    rfl rfl).trans (by decide)

theorem digitChar_mod_isDigit (n : Nat) : (Nat.digitChar (n % 10)).isDigit = true :=
  digitChar_isDigit _ (Nat.mod_lt n (by norm_num))

theorem readDecimal_fixedDigits_three (n : Nat) (h : n ≤ 999) :
    readDecimal (fixedDigits 3 n) = some n := by
  have d0 := digitChar_isDigit (n % 10) (Nat.mod_lt _ (by norm_num))
  have d1 := digitChar_isDigit (n / 10 % 10) (Nat.mod_lt _ (by norm_num))
  have d2 := digitChar_isDigit (n / 10 / 10 % 10) (Nat.mod_lt _ (by norm_num))
  have v0 := digitChar_value (n % 10) (Nat.mod_lt _ (by norm_num))
  have v1 := digitChar_value (n / 10 % 10) (Nat.mod_lt _ (by norm_num))
  have v2 := digitChar_value (n / 10 / 10 % 10) (Nat.mod_lt _ (by norm_num))
  simp only [readDecimal, fixedDigits, List.nil_append, List.cons_append, List.all_cons,
    List.all_nil, d0, d1, d2, List.isEmpty_cons, Bool.not_false, Bool.and_self, if_true,
    List.foldl_cons, List.foldl_nil, v0, v1, v2, Option.some.injEq]
  omega

/-- C2, as the code has it. For a valid instant (microseconds in 0..999999,
calendar fields in their ranges) whose local year is in 1000..9999, the stamp
matches `\d{4}-\d{2}-\d{2}_\d{2}-\d{2}-\d{2}-\d{3}`, has exactly 23
characters, and its last three characters read as a number in 0..999. -/
theorem timestamp_pattern (localtime : Int → tm) (tv : timeval)
    (hr : (localtime tv.tv_sec).inRange) (hu : tv.usecInRange)
    (hy : 1000 ≤ (localtime tv.tv_sec).tm_year + 1900 ∧
      (localtime tv.tv_sec).tm_year + 1900 ≤ 9999) :
    ∃ stamp, timestamp localtime tv = some stamp ∧
      matchesPattern timestampPattern stamp.data = true ∧
      stamp.length = 23 ∧
      ∃ ms, readDecimal (stamp.data.drop 20) = some ms ∧ ms ≤ 999 := by
  obtain ⟨-, hms⟩ := millisecondsOf_inRange tv hu
  refine ⟨_, timestamp_inRange localtime tv hr hu, ?_, ?_, tv.tv_usec.toNat / 1000, ?_, hms⟩
  · rw [yearText_four _ hy.1 hy.2]
    simp [stampTail, timestampPattern, fixedDigits, matchesPattern, digitChar_mod_isDigit]
  · rw [yearText_four _ hy.1 hy.2]
    simp [String.length, stampTail, fixedDigits_length]
  · rw [yearText_four _ hy.1 hy.2]
    have hdrop : ∀ (a b : List Char), a.length = 20 → (a ++ b).drop 20 = b := by
      intro a b hab
      rw [List.drop_append_eq_append_drop, List.drop_of_length_le (by omega)]
      simp [hab]
    have : (fixedDigits 4 ((localtime tv.tv_sec).tm_year + 1900).toNat ++
        stampTail (localtime tv.tv_sec) (tv.tv_usec.toNat / 1000)) =
        (fixedDigits 4 ((localtime tv.tv_sec).tm_year + 1900).toNat ++
          ('-' :: fixedDigits 2 ((localtime tv.tv_sec).tm_mon + 1).toNat ++
          '-' :: fixedDigits 2 (localtime tv.tv_sec).tm_mday.toNat ++
          '_' :: fixedDigits 2 (localtime tv.tv_sec).tm_hour.toNat ++
          '-' :: fixedDigits 2 (localtime tv.tv_sec).tm_min.toNat ++
          '-' :: fixedDigits 2 (localtime tv.tv_sec).tm_sec.toNat ++ ['-'])) ++
        fixedDigits 3 (tv.tv_usec.toNat / 1000) := by
      simp [stampTail]
    rw [this, hdrop _ _ (by simp [fixedDigits_length])]
    exact readDecimal_fixedDigits_three _ hms

/-- Witness of C2 as amended: 2024-03-07 09:05:02 with 7000 microseconds. -/
theorem timestamp_pattern_witness :
    ∃ stamp, timestamp marchLocaltime ⟨1709802302, 7000⟩ = some stamp ∧
      matchesPattern timestampPattern stamp.data = true ∧
      stamp.length = 23 ∧
      ∃ ms, readDecimal (stamp.data.drop 20) = some ms ∧ ms ≤ 999 :=
  timestamp_pattern marchLocaltime ⟨1709802302, 7000⟩ (by decide) (by decide) (by decide)

/-- C2, as stated, fails for a valid instant in the year 10000: every
calendar field is in its range and the microseconds are 7000, but the stamp is
`10000-03-07_09-05-02-007`, which has 24 characters and does not match the
pattern. -/
theorem timestamp_pattern_fails :
    (farLocaltime 253402300800).inRange ∧
    (⟨253402300800, 7000⟩ : timeval).usecInRange ∧
    timestamp farLocaltime ⟨253402300800, 7000⟩ = some "10000-03-07_09-05-02-007" ∧
    ("10000-03-07_09-05-02-007" : String).length = 24 ∧
    matchesPattern timestampPattern ("10000-03-07_09-05-02-007" : String).data = false := by
  refine ⟨by decide, by decide, by decide, by decide, by decide⟩

theorem reserved_not_friendly : ∀ r ∈ reservedChars, ¬ filenameFriendly r := by
  decide

theorem stampTail_friendly (t : tm) (ms : Nat) : ∀ c ∈ stampTail t ms, filenameFriendly c := by
  intro c hc
  simp only [stampTail, List.mem_cons, List.mem_append] at hc
  unfold filenameFriendly
  rcases hc with (((((h | h) | h | h) | h | h) | h | h) | h | h) | h | h <;>
    first
    | exact Or.inl (fixedDigits_isDigit _ _ c h)
    | (subst h; decide)

/-- C7. For every valid instant (calendar fields in their ranges, a year that
fits an `int`, microseconds in 0..999999) every character of the stamp is a
decimal digit, `-` or `_`; hence none is a path separator or one of the
reserved characters `: * ? " < > |`, space, NUL. -/
theorem timestamp_filename_safe (localtime : Int → tm) (tv : timeval)
    (hr : (localtime tv.tv_sec).inRange) (hu : tv.usecInRange) :
    ∃ stamp, timestamp localtime tv = some stamp ∧
      (∀ c ∈ stamp.data, c.isDigit = true ∨ c = '-' ∨ c = '_') ∧
      (∀ c ∈ stamp.data, c ∉ reservedChars) := by
  have hfriendly : ∀ c ∈ strftimeNum 1 ((localtime tv.tv_sec).tm_year + 1900) ++
      stampTail (localtime tv.tv_sec) (tv.tv_usec.toNat / 1000), filenameFriendly c := by
    intro c hc
    rw [List.mem_append] at hc
    rcases hc with hc | hc
    · obtain ⟨k, -, -, -, hy⟩ := yearText_cases _ hr.2.2.2.2.2.1 hr.2.2.2.2.2.2
      rw [hy, List.mem_append] at hc
      rcases hc with hc | hc
      · split_ifs at hc
        · rw [List.mem_singleton] at hc
          exact Or.inr (Or.inl hc)
        · simp at hc
      · exact Or.inl (fixedDigits_isDigit _ _ c hc)
    · exact stampTail_friendly _ _ c hc
  refine ⟨_, timestamp_inRange localtime tv hr hu, hfriendly, ?_⟩
  intro c hc hres
  exact reserved_not_friendly c hres (hfriendly c hc)

/-- Witness of C7: 2024-03-07 09:05:02 with 7000 microseconds. -/
theorem timestamp_filename_safe_witness :
    ∃ stamp, timestamp marchLocaltime ⟨1709802302, 7000⟩ = some stamp ∧
      (∀ c ∈ stamp.data, c.isDigit = true ∨ c = '-' ∨ c = '_') ∧
      (∀ c ∈ stamp.data, c ∉ reservedChars) :=
  timestamp_filename_safe marchLocaltime ⟨1709802302, 7000⟩ (by decide) (by decide)

/-! ## Two stamps are equal only for the same second and millisecond -/

theorem digitChar_inj (a b : Nat) (ha : a < 10) (hb : b < 10)
    (h : Nat.digitChar a = Nat.digitChar b) : a = b := by
  rw [← digitChar_value a ha, ← digitChar_value b hb, h]

theorem fixedDigits_inj (w : Nat) : ∀ (a b : Nat), a < 10 ^ w → b < 10 ^ w →
    fixedDigits w a = fixedDigits w b → a = b := by
  induction w with
  | zero => intro a b ha hb _; simp at ha hb; omega
  | succ w ih =>
    intro a b ha hb h
    have h10 : 10 ^ (w + 1) = 10 * 10 ^ w := by rw [pow_succ]; ring
    rw [fixedDigits, fixedDigits] at h
    obtain ⟨h1, h2⟩ := List.append_inj' h rfl
    have e1 := ih (a / 10) (b / 10) (by omega) (by omega) h1
    have e2 := digitChar_inj _ _ (Nat.mod_lt a (by norm_num)) (Nat.mod_lt b (by norm_num))
      (List.singleton_inj.1 h2)
    omega

theorem stampTail_length (t : tm) (ms : Nat) : (stampTail t ms).length = 19 := by
  simp [stampTail, fixedDigits_length]

theorem stampTail_inj (t1 t2 : tm) (m1 m2 : Nat) (h1 : t1.inRange) (h2 : t2.inRange)
    (hm1 : m1 ≤ 999) (hm2 : m2 ≤ 999) (h : stampTail t1 m1 = stampTail t2 m2) :
    t1.tm_sec = t2.tm_sec ∧ t1.tm_min = t2.tm_min ∧ t1.tm_hour = t2.tm_hour ∧
    t1.tm_mday = t2.tm_mday ∧ t1.tm_mon = t2.tm_mon ∧ m1 = m2 := by
  obtain ⟨⟨a0, a1⟩, ⟨b0, b1⟩, ⟨c0, c1⟩, ⟨d0, d1⟩, ⟨e0, e1⟩, -, -⟩ := h1
  obtain ⟨⟨a2, a3⟩, ⟨b2, b3⟩, ⟨c2, c3⟩, ⟨d2, d3⟩, ⟨e2, e3⟩, -, -⟩ := h2
  unfold stampTail at h
  have len2 : ∀ a b : Nat, (fixedDigits 2 a).length = (fixedDigits 2 b).length := by
    intro a b; rw [fixedDigits_length, fixedDigits_length]
  simp only [List.cons_append, List.cons.injEq, true_and, List.append_assoc] at h
  obtain ⟨hmon, h⟩ := List.append_inj h (len2 _ _)
  simp only [List.cons.injEq, true_and] at h
  obtain ⟨hday, h⟩ := List.append_inj h (len2 _ _)
  simp only [List.cons.injEq, true_and] at h
  obtain ⟨hhour, h⟩ := List.append_inj h (len2 _ _)
  simp only [List.cons.injEq, true_and] at h
  obtain ⟨hmin, h⟩ := List.append_inj h (len2 _ _)
  simp only [List.cons.injEq, true_and] at h
  obtain ⟨hsec, h⟩ := List.append_inj h (len2 _ _)
  simp only [List.cons.injEq, true_and] at h
  have i1 := fixedDigits_inj 2 _ _ (by omega) (by omega) hmon
  have i2 := fixedDigits_inj 2 _ _ (by omega) (by omega) hday
  have i3 := fixedDigits_inj 2 _ _ (by omega) (by omega) hhour
  have i4 := fixedDigits_inj 2 _ _ (by omega) (by omega) hmin
  have i5 := fixedDigits_inj 2 _ _ (by omega) (by omega) hsec
  have i6 := fixedDigits_inj 3 _ _ (by omega) (by omega) h
  refine ⟨?_, ?_, ?_, ?_, ?_, i6⟩ <;> omega

theorem yearText_inj (y1 y2 : Int) (a1 : -2147483648 ≤ y1) (b1 : y1 ≤ 2147483647)
    (a2 : -2147483648 ≤ y2) (b2 : y2 ≤ 2147483647)
    (h : strftimeNum 1 y1 = strftimeNum 1 y2) : y1 = y2 := by
  obtain ⟨k1, -, hk1, -, e1⟩ := yearText_cases y1 a1 b1
  obtain ⟨k2, -, hk2, -, e2⟩ := yearText_cases y2 a2 b2
  rw [e1, e2] at h
  have hdash : ∀ (k n : Nat), '-' ∉ fixedDigits k n := by
    intro k n hmem
    have := fixedDigits_isDigit k n _ hmem
    exact absurd this (by decide)
  have hsame : ∀ (ka kb na nb : Nat), na < 10 ^ (ka + 1) → nb < 10 ^ (kb + 1) →
      fixedDigits (ka + 1) na = fixedDigits (kb + 1) nb → na = nb := by
    intro ka kb na nb ha hb heq
    have hl := congrArg List.length heq
    rw [fixedDigits_length, fixedDigits_length] at hl
    have : ka = kb := by omega
    subst this
    exact fixedDigits_inj _ _ _ ha hb heq
  by_cases n1 : y1 < 0 <;> by_cases n2 : y2 < 0
  · simp only [n1, n2, if_true, List.singleton_append, List.cons.injEq, true_and] at h
    have := hsame _ _ _ _ hk1 hk2 h
    omega
  · simp only [n1, n2, if_true, if_false, List.singleton_append, List.nil_append] at h
    exfalso
    apply hdash (k2 + 1) y2.natAbs
    rw [← h]; exact List.mem_cons_self _ _
  · simp only [n1, n2, if_true, if_false, List.singleton_append, List.nil_append] at h
    exfalso
    apply hdash (k1 + 1) y1.natAbs
    rw [h]; exact List.mem_cons_self _ _
  · simp only [n1, n2, if_false, List.nil_append] at h
    have := hsame _ _ _ _ hk1 hk2 h
    omega

/-- Two valid instants get the same stamp exactly when they have the same
local calendar time and the same whole number of milliseconds. -/
theorem timestamp_eq_iff (localtime : Int → tm) (tv1 tv2 : timeval)
    (h1 : (localtime tv1.tv_sec).inRange) (h2 : (localtime tv2.tv_sec).inRange)
    (u1 : tv1.usecInRange) (u2 : tv2.usecInRange) :
    timestamp localtime tv1 = timestamp localtime tv2 ↔
      localtime tv1.tv_sec = localtime tv2.tv_sec ∧ tv1.tv_usec / 1000 = tv2.tv_usec / 1000 := by
  rw [timestamp_inRange localtime tv1 h1 u1, timestamp_inRange localtime tv2 h2 u2]
  have hm1 := (millisecondsOf_inRange tv1 u1).2
  have hm2 := (millisecondsOf_inRange tv2 u2).2
  have hu1 := u1
  have hu2 := u2
  unfold timeval.usecInRange at hu1 hu2
  constructor
  · intro h
    have hdata := congrArg String.data (Option.some.inj h)
    simp only at hdata
    obtain ⟨hy, ht⟩ := List.append_inj' hdata
      (by rw [stampTail_length, stampTail_length])
    have hyear := yearText_inj _ _ h1.2.2.2.2.2.1 h1.2.2.2.2.2.2 h2.2.2.2.2.2.1 h2.2.2.2.2.2.2 hy
    obtain ⟨s1, s2, s3, s4, s5, s6⟩ := stampTail_inj _ _ _ _ h1 h2 hm1 hm2 ht
    constructor
    · cases hl1 : localtime tv1.tv_sec
      cases hl2 : localtime tv2.tv_sec
      rw [hl1, hl2] at s1 s2 s3 s4 s5 hyear
      simp only at s1 s2 s3 s4 s5 hyear
      simp only [tm.mk.injEq]
      exact ⟨s1, s2, s3, s4, s5, by omega⟩
    · omega
  · rintro ⟨ht, hms⟩
    have : tv1.tv_usec.toNat / 1000 = tv2.tv_usec.toNat / 1000 := by omega
    rw [ht, this]

/-! ## Facts about the capture loop -/

theorem captures_append (a b : List Event) : captures (a ++ b) = captures a ++ captures b :=
  List.filterMap_append _ _ _

theorem allocations_append (a b : List Event) :
    allocations (a ++ b) = allocations a ++ allocations b :=
  List.filterMap_append _ _ _

theorem storedIndices_append (a b : List Event) :
    storedIndices (a ++ b) = storedIndices a ++ storedIndices b :=
  List.filterMap_append _ _ _

theorem written_append (a b : List Event) : written (a ++ b) = written a ++ written b :=
  List.filterMap_append _ _ _

theorem storedIndices_map_store (l : List Nat) : storedIndices (l.map Event.store) = l := by
  induction l with
  | nil => rfl
  | cons a l ih => simp [storedIndices, List.filterMap_cons] at ih ⊢; exact ih

theorem captures_map_store (l : List Nat) : captures (l.map Event.store) = [] := by
  induction l with
  | nil => rfl
  | cons a l ih => simp [captures, List.filterMap_cons] at ih ⊢

theorem allocations_map_store (l : List Nat) : allocations (l.map Event.store) = [] := by
  induction l with
  | nil => rfl
  | cons a l ih => simp [allocations, List.filterMap_cons] at ih ⊢

theorem written_map_store (l : List Nat) : written (l.map Event.store) = [] := by
  induction l with
  | nil => rfl
  | cons a l ih => simp [written, List.filterMap_cons] at ih ⊢

theorem storedIndices_cons_store (i : Nat) (l : List Event) :
    storedIndices (Event.store i :: l) = i :: storedIndices l := rfl

theorem storedIndices_cons_capture (k : Nat) (l : List Event) :
    storedIndices (Event.capture k :: l) = storedIndices l := rfl

theorem storedIndices_cons_allocate (n : Nat) (l : List Event) :
    storedIndices (Event.allocate n :: l) = storedIndices l := rfl

theorem stampTick_succ (i : Nat) :
    stampTick (i + 1) = stampTick i + 1 + (if (i + 1) % 10 = 0 then 2 else 0) := by
  unfold stampTick
  split_ifs <;> omega

theorem initialState_invariant (cfg : Config) (env : Env) :
    LoopInvariant cfg env (initialState env) := by
  constructor <;> simp [initialState, stampTick, captures, allocations, storedIndices, written]

/-- The first half of a pass with buffering, up to the point where the frame
and its name are in slot `frame_counter`. -/
theorem loopBody_stored (cfg : Config) (env : Env) (st : State) (hb : cfg.use_buffer = true)
    (inv : LoopInvariant cfg env st) (hlt : st.frame_counter < cfg.BUFFER_MAX_SIZE) :
    ∃ stamp st4, timestamp env.localtime (env.clock st.ticks) = some stamp ∧
      loopBody cfg env st =
        .ok (preview cfg env (env.camera st.grabbed) (countFrame env st4)) ∧
      st4.frame_counter = st.frame_counter ∧ st4.grabbed = st.grabbed + 1 ∧
      st4.ticks = st.ticks + 1 ∧
      st4.frames_buffer =
        (if st.frame_counter = 0 then List.replicate cfg.BUFFER_MAX_SIZE (env.camera st.grabbed)
          else st.frames_buffer).set st.frame_counter (env.camera st.grabbed) ∧
      st4.frame_files =
        (if st.frame_counter = 0 then List.replicate cfg.BUFFER_MAX_SIZE ""
          else st.frame_files).set st.frame_counter (fileName stamp) ∧
      st4.trace = st.trace ++ Event.capture st.grabbed ::
        ((if st.frame_counter = 0 then
            Event.allocate cfg.BUFFER_MAX_SIZE :: (List.range cfg.BUFFER_MAX_SIZE).map Event.store
          else []) ++ [Event.store st.frame_counter]) := by
  obtain ⟨stamp, hts⟩ : ∃ stamp, timestamp env.localtime (env.clock st.ticks) = some stamp :=
    ⟨_, timestamp_inRange _ _ (env.localtime_inRange _) (env.clock_usec _)⟩
  by_cases h0 : st.frame_counter = 0
  · have hempty : st.frames_buffer = [] :=
      List.length_eq_zero.1 (by rw [inv.buffer_length, if_pos h0])
    have hpos : 0 < cfg.BUFFER_MAX_SIZE := by omega
    refine ⟨stamp,
      { frame_counter := st.frame_counter,
        frames_buffer := (List.replicate cfg.BUFFER_MAX_SIZE (env.camera st.grabbed)).set
          st.frame_counter (env.camera st.grabbed),
        frame_files := (List.replicate cfg.BUFFER_MAX_SIZE "").set st.frame_counter
          (fileName stamp),
        timer := st.timer, grabbed := st.grabbed + 1, ticks := st.ticks + 1,
        polled := st.polled,
        trace := st.trace ++ Event.capture st.grabbed ::
          ((Event.allocate cfg.BUFFER_MAX_SIZE ::
            (List.range cfg.BUFFER_MAX_SIZE).map Event.store) ++
            [Event.store st.frame_counter]) }, hts, ?_, ?_⟩
    · simp [loopBody, createBuffers, hb, hempty, hts, keepFrame, h0, hpos, fileName]
    · simp [h0]
  · have hlen1 : st.frames_buffer.length = cfg.BUFFER_MAX_SIZE := by
      rw [inv.buffer_length, if_neg h0]
    have hlen2 : st.frame_files.length = cfg.BUFFER_MAX_SIZE := by
      rw [inv.files_length, if_neg h0]
    have hne : st.frames_buffer.isEmpty = false := by
      cases hfb : st.frames_buffer with
      | nil => rw [hfb] at hlen1; simp at hlen1; omega
      | cons a l => rfl
    refine ⟨stamp,
      { frame_counter := st.frame_counter,
        frames_buffer := st.frames_buffer.set st.frame_counter (env.camera st.grabbed),
        frame_files := st.frame_files.set st.frame_counter (fileName stamp),
        timer := st.timer, grabbed := st.grabbed + 1, ticks := st.ticks + 1,
        polled := st.polled,
        trace := st.trace ++ Event.capture st.grabbed :: [Event.store st.frame_counter] },
      hts, ?_, ?_⟩
    · simp [loopBody, createBuffers, hb, hne, hts, keepFrame, hlen1, hlen2, hlt, fileName]
    · simp [h0]

theorem countFrame_fields (env : Env) (st : State) :
    (countFrame env st).frame_counter = st.frame_counter + 1 ∧
    (countFrame env st).grabbed = st.grabbed ∧
    (countFrame env st).frames_buffer = st.frames_buffer ∧
    (countFrame env st).frame_files = st.frame_files ∧
    (countFrame env st).ticks =
      st.ticks + (if (st.frame_counter + 1) % 10 = 0 then 2 else 0) ∧
    ∃ extra, (countFrame env st).trace = st.trace ++ extra ∧
      (∀ e ∈ extra, ∃ v, e = Event.printFps v) := by
  by_cases h : (st.frame_counter + 1) % 10 = 0
  · simp only [countFrame, h, if_true]
    exact ⟨trivial, trivial, trivial, trivial, trivial, _, rfl, by simp⟩
  · simp only [countFrame, h, if_false]
    exact ⟨trivial, trivial, trivial, trivial, rfl, [], by simp, by simp⟩

theorem preview_fields (cfg : Config) (env : Env) (frame : Mat) (st : State) :
    (preview cfg env frame st).1.frame_counter = st.frame_counter ∧
    (preview cfg env frame st).1.grabbed = st.grabbed ∧
    (preview cfg env frame st).1.frames_buffer = st.frames_buffer ∧
    (preview cfg env frame st).1.frame_files = st.frame_files ∧
    (preview cfg env frame st).1.ticks = st.ticks ∧
    (cfg.display = false → (preview cfg env frame st).2 = false) ∧
    ∃ extra, (preview cfg env frame st).1.trace = st.trace ++ extra ∧
      (∀ e ∈ extra, ∃ f, e = Event.imshow f) := by
  cases hd : cfg.display
  · simp only [preview, hd]
    exact ⟨rfl, rfl, rfl, rfl, rfl, fun _ => rfl, [], by simp, by simp⟩
  · simp only [preview, hd]
    exact ⟨rfl, rfl, rfl, rfl, rfl, fun h => by simp at h, _, rfl, by simp⟩

/-- Events that only print or show contribute nothing to what is read off a
trace. -/
theorem quiet_events (extra : List Event)
    (h : ∀ e ∈ extra, (∃ v, e = Event.printFps v) ∨ (∃ f, e = Event.imshow f)) :
    captures extra = [] ∧ allocations extra = [] ∧ storedIndices extra = [] ∧
    written extra = [] ∧ Event.release ∉ extra := by
  induction extra with
  | nil => simp [captures, allocations, storedIndices, written]
  | cons e rest ih =>
    obtain ⟨i1, i2, i3, i4, i5⟩ := ih (fun x hx => h x (List.mem_cons_of_mem _ hx))
    rcases h e (List.mem_cons_self _ _) with ⟨v, rfl⟩ | ⟨f, rfl⟩ <;>
      simp_all [captures, allocations, storedIndices, written, List.filterMap_cons]

theorem loopBody_spec (cfg : Config) (env : Env) (st : State) (hb : cfg.use_buffer = true)
    (inv : LoopInvariant cfg env st) (hlt : st.frame_counter < cfg.BUFFER_MAX_SIZE) :
    ∃ st1 brk, loopBody cfg env st = .ok (st1, brk) ∧ LoopInvariant cfg env st1 ∧
      st1.frame_counter = st.frame_counter + 1 ∧ (cfg.display = false → brk = false) := by
  obtain ⟨stamp, st4, hts, hbody, f1, f2, f3, f4, f5, f6⟩ :=
    loopBody_stored cfg env st hb inv hlt
  obtain ⟨c1, c2, c3, c4, c5, cx, c6, c7⟩ := countFrame_fields env st4
  obtain ⟨p1, p2, p3, p4, p5, p6, px, p7, p8⟩ :=
    preview_fields cfg env (env.camera st.grabbed) (countFrame env st4)
  obtain ⟨qc1, qc2, qc3, qc4, qc5⟩ := quiet_events cx (fun e he => Or.inl (c7 e he))
  obtain ⟨qp1, qp2, qp3, qp4, qp5⟩ := quiet_events px (fun e he => Or.inr (p8 e he))
  have hfc : (preview cfg env (env.camera st.grabbed) (countFrame env st4)).1.frame_counter =
      st.frame_counter + 1 := by rw [p1, c1, f1]
  have hgr := inv.grabbed_eq
  have hlenB : (if st.frame_counter = 0 then
      List.replicate cfg.BUFFER_MAX_SIZE (env.camera st.grabbed) else st.frames_buffer).length =
      cfg.BUFFER_MAX_SIZE := by
    split_ifs with h0
    · simp
    · rw [inv.buffer_length, if_neg h0]
  have hlenF : (if st.frame_counter = 0 then
      List.replicate cfg.BUFFER_MAX_SIZE "" else st.frame_files).length =
      cfg.BUFFER_MAX_SIZE := by
    split_ifs with h0
    · simp
    · rw [inv.files_length, if_neg h0]
  have htrace : (preview cfg env (env.camera st.grabbed) (countFrame env st4)).1.trace =
      st.trace ++ Event.capture st.grabbed ::
        ((if st.frame_counter = 0 then
            Event.allocate cfg.BUFFER_MAX_SIZE :: (List.range cfg.BUFFER_MAX_SIZE).map Event.store
          else []) ++ [Event.store st.frame_counter]) ++ cx ++ px := by
    rw [p7, c6, f6]
  refine ⟨(preview cfg env (env.camera st.grabbed) (countFrame env st4)).1,
    (preview cfg env (env.camera st.grabbed) (countFrame env st4)).2, hbody, ?_, hfc, p6⟩
  constructor
  · rw [p2, c2, f2, hfc, hgr]
  · rw [hfc]; omega
  · rw [p3, c3, f4, hfc, List.length_set, hlenB, if_neg (by omega)]
  · rw [p4, c4, f5, hfc, List.length_set, hlenF, if_neg (by omega)]
  · rw [p5, c5, f3, f1, hfc, stampTick_succ, inv.ticks_eq]
  · intro i hi
    rw [p3, c3, f4]
    rw [hfc] at hi
    by_cases hi2 : i = st.frame_counter
    · subst hi2
      rw [List.getElem?_set_self (by rw [hlenB]; exact hlt), hgr]
    · rw [List.getElem?_set_ne (fun h => hi2 h.symm), if_neg (by omega)]
      exact inv.frames i (by omega)
  · intro i hi
    rw [p4, c4, f5]
    rw [hfc] at hi
    by_cases hi2 : i = st.frame_counter
    · subst hi2
      refine ⟨stamp, ?_, ?_⟩
      · rw [← inv.ticks_eq]; exact hts
      · rw [List.getElem?_set_self (by rw [hlenF]; exact hlt)]
    · rw [List.getElem?_set_ne (fun h => hi2 h.symm), if_neg (by omega)]
      exact inv.files i (by omega)
  · rw [htrace, hfc]
    simp only [captures_append, qc1, qp1, List.append_nil, inv.captures_eq]
    rw [List.range_succ, hgr]
    split_ifs <;> simp [captures, captures_map_store, List.filterMap_cons]
  · rw [htrace, hfc]
    simp only [allocations_append, qc2, qp2, List.append_nil, inv.allocations_eq]
    split_ifs <;> simp_all [allocations, allocations_map_store, List.filterMap_cons]
  · intro i hi
    rw [htrace] at hi
    simp only [storedIndices_append, qc3, qp3, List.append_nil, List.mem_append] at hi
    rcases hi with hi | hi
    · exact inv.stores_lt i hi
    · split_ifs at hi
      · simp only [storedIndices_cons_capture, storedIndices_cons_allocate,
          storedIndices_append, storedIndices_map_store, storedIndices_cons_store,
          List.mem_append, List.mem_range, List.mem_cons] at hi
        rcases hi with hi | hi | hi
        · exact hi
        · omega
        · simp [storedIndices] at hi
      · simp only [storedIndices_cons_capture, List.nil_append, storedIndices_cons_store,
          List.mem_cons] at hi
        rcases hi with hi | hi
        · omega
        · simp [storedIndices] at hi
  · rw [htrace]
    simp only [written_append, qc4, qp4, List.append_nil, inv.written_eq]
    split_ifs <;> simp [written, written_map_store, List.filterMap_cons]
  · rw [htrace]
    simp only [List.mem_append, not_or]
    refine ⟨⟨⟨inv.not_released, ?_⟩, qc5⟩, qp5⟩
    split_ifs <;> simp

/-- Any number of passes of the loop with buffering: no fault, the invariant
holds afterwards, and the counter tells how many passes were made. -/
theorem iterations_spec (cfg : Config) (env : Env) (hb : cfg.use_buffer = true) :
    ∀ (n : Nat) (st : State), LoopInvariant cfg env st →
      ∃ st1 brk, iterations cfg env n st = .ok (st1, brk) ∧ LoopInvariant cfg env st1 ∧
        st.frame_counter ≤ st1.frame_counter ∧
        (brk = false → st1.frame_counter = st.frame_counter + n ∧
          st1.frame_counter < cfg.BUFFER_MAX_SIZE) ∧
        (cfg.display = false →
          st1.frame_counter = min (st.frame_counter + n) cfg.BUFFER_MAX_SIZE) ∧
        (0 < n → st.frame_counter < cfg.BUFFER_MAX_SIZE →
          st.frame_counter < st1.frame_counter) := by
  intro n
  induction n with
  | zero =>
    intro st inv
    have hle := inv.counter_le
    refine ⟨st, decide (¬ st.frame_counter < cfg.BUFFER_MAX_SIZE), rfl, inv, le_rfl, ?_, ?_, ?_⟩
    · intro h
      simp at h
      exact ⟨rfl, h⟩
    · intro _
      simp only [Nat.add_zero]
      omega
    · intro h; omega
  | succ n ih =>
    intro st inv
    have hle := inv.counter_le
    by_cases hlt : st.frame_counter < cfg.BUFFER_MAX_SIZE
    · obtain ⟨st1, brk, hbody, inv1, hfc1, hbrk⟩ := loopBody_spec cfg env st hb inv hlt
      cases brk with
      | true =>
        refine ⟨st1, true, ?_, inv1, by omega, ?_, ?_, ?_⟩
        · simp [iterations, hlt, hbody]
        · intro h; simp at h
        · intro hd; have := hbrk hd; simp at this
        · intro _ _; omega
      | false =>
        obtain ⟨st2, brk2, hit, inv2, hmono, hfalse, hdisp, -⟩ := ih st1 inv1
        refine ⟨st2, brk2, ?_, inv2, by omega, ?_, ?_, ?_⟩
        · simp [iterations, hlt, hbody, hit]
        · intro h
          obtain ⟨h1, h2⟩ := hfalse h
          exact ⟨by omega, h2⟩
        · intro hd
          rw [hdisp hd, hfc1]
          congr 1
          omega
        · intro _ _; omega
    · refine ⟨st, true, ?_, inv, le_rfl, ?_, ?_, ?_⟩
      · simp [iterations, hlt]
      · intro h; simp at h
      · intro _; omega
      · intro _ h; omega

/-- The capture phase of a run with buffering ends without fault in a state
that satisfies the loop invariant. -/
theorem capturePhase_spec (cfg : Config) (env : Env) (hb : cfg.use_buffer = true) :
    ∃ st, capturePhase cfg env = .ok st ∧ LoopInvariant cfg env st ∧
      (cfg.display = false → st.frame_counter = cfg.BUFFER_MAX_SIZE) := by
  obtain ⟨st, brk, hit, inv, -, hfalse, hdisp, -⟩ :=
    iterations_spec cfg env hb cfg.BUFFER_MAX_SIZE (initialState env)
      (initialState_invariant cfg env)
  have h0 : (initialState env).frame_counter = 0 := rfl
  cases brk with
  | true =>
    refine ⟨st, ?_, inv, ?_⟩
    · simp [capturePhase, captureLoop, hit]
    · intro hd
      rw [hdisp hd, h0]
      simp
  | false =>
    obtain ⟨h1, h2⟩ := hfalse rfl
    rw [h0] at h1
    omega

/-! ## Facts about the write-out loop -/

/-- The write-out loop over slots `i .. i + todo - 1` that exist: no fault,
and one file write per slot, in order, of the slot's image with the slot's
name drawn on it, to the file of that name. -/
theorem saveLoop_spec (env : Env) :
    ∀ (todo i : Nat) (st : State), i + todo ≤ st.frames_buffer.length →
      i + todo ≤ st.frame_files.length →
      ∃ st1, saveLoop env todo i st = .ok st1 ∧ st1.frame_counter = st.frame_counter ∧
        st1.frame_files = st.frame_files ∧
        st1.trace = st.trace ++ (List.range' i todo).map (fun j =>
          Event.imwrite (st.frame_files.getD j "")
            (env.putText (st.frames_buffer.getD j []) (st.frame_files.getD j ""))) := by
  intro todo
  induction todo with
  | zero =>
    intro i st _ _
    exact ⟨st, rfl, rfl, rfl, by simp⟩
  | succ todo ih =>
    intro i st h1 h2
    have hi1 : i < st.frames_buffer.length := by omega
    have hi2 : i < st.frame_files.length := by omega
    have e1 : st.frames_buffer[i]? = some (st.frames_buffer.getD i []) := by
      rw [List.getD_eq_getElem?_getD, List.getElem?_eq_getElem hi1]; rfl
    have e2 : st.frame_files[i]? = some (st.frame_files.getD i "") := by
      rw [List.getD_eq_getElem?_getD, List.getElem?_eq_getElem hi2]; rfl
    have hsave : saveFrame env st i = .ok
        { st with
          frames_buffer := st.frames_buffer.set i
            (env.putText (st.frames_buffer.getD i []) (st.frame_files.getD i "")),
          trace := st.trace ++ [Event.imwrite (st.frame_files.getD i "")
            (env.putText (st.frames_buffer.getD i []) (st.frame_files.getD i ""))] } := by
      simp only [saveFrame, e1, e2]
    obtain ⟨st1, hloop, hc, hf, ht⟩ := ih (i + 1)
      { st with
        frames_buffer := st.frames_buffer.set i
          (env.putText (st.frames_buffer.getD i []) (st.frame_files.getD i "")),
        trace := st.trace ++ [Event.imwrite (st.frame_files.getD i "")
          (env.putText (st.frames_buffer.getD i []) (st.frame_files.getD i ""))] }
      (by simp only [List.length_set]; omega) (by simp only; omega)
    refine ⟨st1, ?_, hc, hf, ?_⟩
    · simp only [saveLoop, hsave, hloop]
    · rw [ht, List.range'_succ, List.map_cons, List.append_assoc, List.singleton_append]
      congr 2
      apply List.map_congr_left
      intro j hj
      rw [List.mem_range'_1] at hj
      have hne : i ≠ j := by omega
      simp only [List.getD_eq_getElem?_getD, List.getElem?_set_ne hne]

/-- A run of `main` with buffering: the capture phase ends in a state `st1`
without fault, the camera is released, and the write-out loop then writes
slot `i`, with its name drawn on it, to the file named in `frame_files[i]`,
for `i` from 0 to `frame_counter - 1`. -/
theorem main_spec (cfg : Config) (env : Env) (hb : cfg.use_buffer = true) :
    ∃ st1 st2, capturePhase cfg env = .ok st1 ∧ LoopInvariant cfg env st1 ∧
      (cfg.display = false → st1.frame_counter = cfg.BUFFER_MAX_SIZE) ∧
      main cfg env = .ok st2 ∧
      st2.trace = st1.trace ++ Event.release :: (List.range st1.frame_counter).map (fun i =>
        Event.imwrite (st1.frame_files.getD i "")
          (env.putText (st1.frames_buffer.getD i []) (st1.frame_files.getD i ""))) := by
  obtain ⟨st1, hcap, inv, hfull⟩ := capturePhase_spec cfg env hb
  have hle := inv.counter_le
  have hl1 : 0 + st1.frame_counter ≤ st1.frames_buffer.length := by
    rw [inv.buffer_length]; split_ifs <;> omega
  have hl2 : 0 + st1.frame_counter ≤ st1.frame_files.length := by
    rw [inv.files_length]; split_ifs <;> omega
  obtain ⟨st2, hsave, -, -, ht⟩ := saveLoop_spec env st1.frame_counter 0
    { st1 with trace := st1.trace ++ [Event.release] } hl1 hl2
  refine ⟨st1, st2, hcap, inv, hfull, ?_, ?_⟩
  · simp only [main, hcap, hsave]
  · rw [ht, List.range_eq_range']
    simp

/-! ## The capture loop and the write-out loop of `main` -/

theorem fileName_inj (a b : String) (h : fileName a = fileName b) : a = b := by
  unfold fileName at h
  have hd := congrArg String.data h
  simp only [String.data_append] at hd
  have := List.append_cancel_left (List.append_cancel_right hd)
  exact String.ext this

theorem captures_map_imwrite (f : Nat → String × Mat) (l : List Nat) :
    captures (l.map fun i => Event.imwrite (f i).1 (f i).2) = [] := by
  induction l with
  | nil => rfl
  | cons a l ih => simp [captures, List.filterMap_cons] at ih ⊢

theorem written_map_imwrite (f : Nat → String × Mat) (l : List Nat) :
    written (l.map fun i => Event.imwrite (f i).1 (f i).2) = l.map f := by
  induction l with
  | nil => rfl
  | cons a l ih => simp [written, List.filterMap_cons] at ih ⊢; exact ih

/-- C5. In a run with buffering and no preview and capacity `N ≥ 1`, the
capture loop ends after exactly `N` camera reads (reads 0 .. N-1, and `main`
makes no further read afterwards); the k-th frame read is in slot `k` of the
buffer when the loop ends, for every `k < N`; and every buffer index written
during the loop is below `N`. -/
theorem capture_fills_buffer (env : Env) (N : Nat) (hN : 1 ≤ N) :
    ∃ st st2, capturePhase { display := false, use_buffer := true, BUFFER_MAX_SIZE := N } env
        = .ok st ∧
      st.frame_counter = N ∧ st.grabbed = N ∧ captures st.trace = List.range N ∧
      st.frames_buffer.length = N ∧
      (∀ k, k < N → st.frames_buffer[k]? = some (env.camera k)) ∧
      (∀ i, i ∈ storedIndices st.trace → i < N) ∧
      main { display := false, use_buffer := true, BUFFER_MAX_SIZE := N } env = .ok st2 ∧
      captures st2.trace = List.range N := by
  obtain ⟨st, st2, hcap, inv, hfull, hmain, htrace⟩ :=
    main_spec { display := false, use_buffer := true, BUFFER_MAX_SIZE := N } env rfl
  have hfc : st.frame_counter = N := hfull rfl
  refine ⟨st, st2, hcap, hfc, ?_, ?_, ?_, ?_, ?_, hmain, ?_⟩
  · rw [inv.grabbed_eq, hfc]
  · rw [inv.captures_eq, hfc]
  · rw [inv.buffer_length, hfc, if_neg (by omega)]
  · intro k hk
    exact inv.frames k (by omega)
  · exact inv.stores_lt
  · rw [htrace, captures_append, inv.captures_eq, hfc]
    have := captures_map_imwrite (fun i => (st.frame_files.getD i "",
      env.putText (st.frames_buffer.getD i []) (st.frame_files.getD i ""))) (List.range N)
    simp only at this
    simp [captures, List.filterMap_cons] at this ⊢

/-- Witness of C5, the example of the specification: capacity 3 fed 3 frames
leaves them at indices 0, 1, 2 and no fourth capture happens. -/
theorem capture_fills_buffer_witness :
    ∃ st st2, capturePhase { display := false, use_buffer := true, BUFFER_MAX_SIZE := 3 } steadyEnv
        = .ok st ∧
      st.frame_counter = 3 ∧ st.grabbed = 3 ∧ captures st.trace = List.range 3 ∧
      st.frames_buffer.length = 3 ∧
      (∀ k, k < 3 → st.frames_buffer[k]? = some (steadyEnv.camera k)) ∧
      (∀ i, i ∈ storedIndices st.trace → i < 3) ∧
      main { display := false, use_buffer := true, BUFFER_MAX_SIZE := 3 } steadyEnv = .ok st2 ∧
      captures st2.trace = List.range 3 :=
  capture_fills_buffer steadyEnv 3 (by decide)

/-- C9. In a run of `main` with buffering no image file is written during the
capture phase: the trace of the whole run is the trace of the capture phase,
which has no file write and no release, then the release of the camera, then
exactly `frame_counter` file writes, the i-th of which (i = 0 ..
frame_counter - 1, in increasing order) writes buffer slot `i`, with the name
drawn on it, to the file named in `frame_files[i]`. -/
theorem writes_after_capture (cfg : Config) (env : Env) (hb : cfg.use_buffer = true) :
    ∃ st1 st2, capturePhase cfg env = .ok st1 ∧ main cfg env = .ok st2 ∧
      written st1.trace = [] ∧ Event.release ∉ st1.trace ∧
      captures st1.trace = List.range st1.frame_counter ∧
      st1.frame_counter ≤ st1.frames_buffer.length ∧
      st1.frame_counter ≤ st1.frame_files.length ∧
      st2.trace = st1.trace ++ Event.release :: (List.range st1.frame_counter).map (fun i =>
        Event.imwrite (st1.frame_files.getD i "")
          (env.putText (st1.frames_buffer.getD i []) (st1.frame_files.getD i ""))) ∧
      written st2.trace = (List.range st1.frame_counter).map (fun i =>
        (st1.frame_files.getD i "",
          env.putText (st1.frames_buffer.getD i []) (st1.frame_files.getD i ""))) ∧
      (written st2.trace).length = st1.frame_counter := by
  obtain ⟨st1, st2, hcap, inv, -, hmain, htrace⟩ := main_spec cfg env hb
  have hle := inv.counter_le
  have hw : written st2.trace = (List.range st1.frame_counter).map (fun i =>
      (st1.frame_files.getD i "",
        env.putText (st1.frames_buffer.getD i []) (st1.frame_files.getD i ""))) := by
    rw [htrace, written_append, inv.written_eq, List.nil_append]
    have := written_map_imwrite (fun i => (st1.frame_files.getD i "",
      env.putText (st1.frames_buffer.getD i []) (st1.frame_files.getD i "")))
      (List.range st1.frame_counter)
    simp only at this
    rw [← this]
    rfl
  refine ⟨st1, st2, hcap, hmain, inv.written_eq, inv.not_released, inv.captures_eq, ?_, ?_,
    htrace, hw, ?_⟩
  · rw [inv.buffer_length]; split_ifs <;> omega
  · rw [inv.files_length]; split_ifs <;> omega
  · rw [hw]; simp

/-- Witness of C9: the configuration written in the source. -/
theorem writes_after_capture_witness :
    ∃ st1 st2, capturePhase sourceConfig steadyEnv = .ok st1 ∧
      main sourceConfig steadyEnv = .ok st2 ∧
      written st1.trace = [] ∧ Event.release ∉ st1.trace ∧
      captures st1.trace = List.range st1.frame_counter ∧
      st1.frame_counter ≤ st1.frames_buffer.length ∧
      st1.frame_counter ≤ st1.frame_files.length ∧
      st2.trace = st1.trace ++ Event.release :: (List.range st1.frame_counter).map (fun i =>
        Event.imwrite (st1.frame_files.getD i "")
          (steadyEnv.putText (st1.frames_buffer.getD i []) (st1.frame_files.getD i ""))) ∧
      written st2.trace = (List.range st1.frame_counter).map (fun i =>
        (st1.frame_files.getD i "",
          steadyEnv.putText (st1.frames_buffer.getD i []) (st1.frame_files.getD i ""))) ∧
      (written st2.trace).length = st1.frame_counter :=
  writes_after_capture sourceConfig steadyEnv rfl

/-- C10. With buffering and capacity `N ≥ 1`, both vectors are empty and
nothing is allocated before the first pass of the capture loop; after the
first pass and after every later one both vectors have length exactly `N` and
the trace holds exactly one allocation, of size `N`. -/
theorem buffers_allocated_once (cfg : Config) (env : Env) (hb : cfg.use_buffer = true)
    (hN : 1 ≤ cfg.BUFFER_MAX_SIZE) :
    (initialState env).frames_buffer = [] ∧ (initialState env).frame_files = [] ∧
    allocations (initialState env).trace = [] ∧
    ∀ k, 1 ≤ k → ∃ st brk, iterations cfg env k (initialState env) = .ok (st, brk) ∧
      st.frames_buffer.length = cfg.BUFFER_MAX_SIZE ∧
      st.frame_files.length = cfg.BUFFER_MAX_SIZE ∧
      allocations st.trace = [cfg.BUFFER_MAX_SIZE] := by
  refine ⟨rfl, rfl, rfl, ?_⟩
  intro k hk
  obtain ⟨st, brk, hit, inv, -, -, -, hgrow⟩ :=
    iterations_spec cfg env hb k (initialState env) (initialState_invariant cfg env)
  have hpos : 0 < st.frame_counter := by
    have := hgrow (by omega) (by show 0 < cfg.BUFFER_MAX_SIZE; omega)
    omega
  refine ⟨st, brk, hit, ?_, ?_, ?_⟩
  · rw [inv.buffer_length, if_neg (by omega)]
  · rw [inv.files_length, if_neg (by omega)]
  · rw [inv.allocations_eq, if_neg (by omega)]

/-- Witness of C10: the configuration written in the source, after 7 passes. -/
theorem buffers_allocated_once_witness :
    ∃ st brk, iterations sourceConfig steadyEnv 7 (initialState steadyEnv) = .ok (st, brk) ∧
      st.frames_buffer.length = 100 ∧ st.frame_files.length = 100 ∧
      allocations st.trace = [100] :=
  (buffers_allocated_once sourceConfig steadyEnv rfl (by decide)).2.2.2 7 (by decide)

/-- C6, as the code has it. In a run with buffering and no preview that fills
a buffer of capacity `N`, slot `i` of `frame_files` holds `"/tmp/"`, the stamp of
the clock reading taken at the capture of frame `i`, and `".png"`; and the
names in two slots `i`, `j` are equal exactly when those two readings have the
same local calendar time and the same whole number of milliseconds. -/
theorem filenames_equal_iff (env : Env) (N i j : Nat) (hi : i < N) (hj : j < N) :
    ∃ st si sj, capturePhase { display := false, use_buffer := true, BUFFER_MAX_SIZE := N } env
        = .ok st ∧
      st.frame_files.length = N ∧
      timestamp env.localtime (env.clock (stampTick i)) = some si ∧
      timestamp env.localtime (env.clock (stampTick j)) = some sj ∧
      st.frame_files[i]? = some ("/tmp/" ++ si ++ ".png") ∧
      st.frame_files[j]? = some ("/tmp/" ++ sj ++ ".png") ∧
      (st.frame_files[i]? = st.frame_files[j]? ↔
        env.localtime (env.clock (stampTick i)).tv_sec =
            env.localtime (env.clock (stampTick j)).tv_sec ∧
          (env.clock (stampTick i)).tv_usec / 1000 = (env.clock (stampTick j)).tv_usec / 1000) := by
  obtain ⟨st, hcap, inv, hfull⟩ :=
    capturePhase_spec { display := false, use_buffer := true, BUFFER_MAX_SIZE := N } env rfl
  have hfc : st.frame_counter = N := hfull rfl
  obtain ⟨si, hsi, hfi⟩ := inv.files i (by omega)
  obtain ⟨sj, hsj, hfj⟩ := inv.files j (by omega)
  refine ⟨st, si, sj, hcap, ?_, hsi, hsj, hfi, hfj, ?_⟩
  · rw [inv.files_length, hfc, if_neg (by omega)]
  · rw [hfi, hfj, ← timestamp_eq_iff env.localtime _ _ (env.localtime_inRange _)
      (env.localtime_inRange _) (env.clock_usec _) (env.clock_usec _), hsi, hsj]
    constructor
    · intro h
      rw [fileName_inj si sj (Option.some.inj h)]
    · intro h
      rw [Option.some.inj h]

/-- Witness of C6 as amended: frames 0 and 2 of a run of capacity 3 whose
clock advances 40 ms per reading. -/
theorem filenames_equal_iff_witness :
    ∃ st si sj, capturePhase { display := false, use_buffer := true, BUFFER_MAX_SIZE := 3 }
        steadyEnv = .ok st ∧
      st.frame_files.length = 3 ∧
      timestamp steadyEnv.localtime (steadyEnv.clock (stampTick 0)) = some si ∧
      timestamp steadyEnv.localtime (steadyEnv.clock (stampTick 2)) = some sj ∧
      st.frame_files[0]? = some ("/tmp/" ++ si ++ ".png") ∧
      st.frame_files[2]? = some ("/tmp/" ++ sj ++ ".png") ∧
      (st.frame_files[0]? = st.frame_files[2]? ↔
        steadyEnv.localtime (steadyEnv.clock (stampTick 0)).tv_sec =
            steadyEnv.localtime (steadyEnv.clock (stampTick 2)).tv_sec ∧
          (steadyEnv.clock (stampTick 0)).tv_usec / 1000 =
            (steadyEnv.clock (stampTick 2)).tv_usec / 1000) :=
  filenames_equal_iff steadyEnv 3 0 2 (by decide) (by decide)

/-- C6, as stated, fails: with capacity 3 and a clock that advances 100
microseconds per reading, the three captures fall in the same millisecond and
the three file names are the same. -/
theorem filenames_collide :
    ∃ st, capturePhase { display := false, use_buffer := true, BUFFER_MAX_SIZE := 3 } burstEnv
        = .ok st ∧
      st.frame_files = ["/tmp/2024-03-07_09-05-02-007.png", "/tmp/2024-03-07_09-05-02-007.png",
        "/tmp/2024-03-07_09-05-02-007.png"] ∧
      (burstEnv.clock (stampTick 0)).tv_usec < (burstEnv.clock (stampTick 1)).tv_usec ∧
      (burstEnv.clock (stampTick 1)).tv_usec < (burstEnv.clock (stampTick 2)).tv_usec ∧
      ¬ st.frame_files.Nodup := by
  obtain ⟨st, hcap, inv, hfull⟩ :=
    capturePhase_spec { display := false, use_buffer := true, BUFFER_MAX_SIZE := 3 } burstEnv rfl
  have hfc : st.frame_counter = 3 := hfull rfl
  have hlen : st.frame_files.length = 3 := by rw [inv.files_length, hfc]; rfl
  obtain ⟨s0, h0, f0⟩ := inv.files 0 (by omega)
  obtain ⟨s1, h1, f1⟩ := inv.files 1 (by omega)
  obtain ⟨s2, h2, f2⟩ := inv.files 2 (by omega)
  have e0 : timestamp burstEnv.localtime (burstEnv.clock (stampTick 0)) =
      some "2024-03-07_09-05-02-007" := by decide
  have e1 : timestamp burstEnv.localtime (burstEnv.clock (stampTick 1)) =
      some "2024-03-07_09-05-02-007" := by decide
  have e2 : timestamp burstEnv.localtime (burstEnv.clock (stampTick 2)) =
      some "2024-03-07_09-05-02-007" := by decide
  rw [e0] at h0; rw [e1] at h1; rw [e2] at h2
  have hfiles : st.frame_files = ["/tmp/2024-03-07_09-05-02-007.png",
      "/tmp/2024-03-07_09-05-02-007.png", "/tmp/2024-03-07_09-05-02-007.png"] := by
    apply List.ext_getElem?
    intro n
    rcases n with _ | _ | _ | n
    · rw [f0, ← Option.some.inj h0]; rfl
    · rw [f1, ← Option.some.inj h1]; rfl
    · rw [f2, ← Option.some.inj h2]; rfl
    · rw [List.getElem?_eq_none (by omega)]; rfl
  refine ⟨st, hcap, hfiles, by decide, by decide, ?_⟩
  rw [hfiles]
  decide

end Camdumper
